import Mathlib

/-!
Shallow embedding of the heuristic matching and export pipeline of the
accessibility-heuristics documentation site.

The definitions below are translated from the TypeScript sources:

* `src/lib/analyzer/element-mapping.ts` — the element catalog
  (`ELEMENT_HEURISTIC_MAP`, `getHeuristicsForElements`);
* `src/lib/analyzer/heuristic-matcher.ts` — the matcher
  (`matchHeuristics`, `extractPreviewText`, `parseKeywords`);
* the analyzer API route — `generateSummary`, `calculateConfidence`,
  and the request validation of the match route;
* the export generator — `generateMarkdownChecklist` and the vertical
  layout of `generatePDFChecklist` (embedded as a layout simulation);
* the documents settings — the canonical category order.

External collaborators (the document repository read by `getDocument`
and the raw MDX file reads) are passed in as an explicit
`HeuristicRepo` value: a pair of lookup functions, `none` standing for
a failed (thrown or not-found) resolution.  JavaScript `Map` objects
are embedded as association lists with JavaScript `Map` semantics
(first-insertion key order, in-place overwrite), `Array.prototype.sort`
as a stable comparator sort (stability is mandated by ECMA-262), and
machine floats (`0.7`, `0.85`, …) as exact rationals, which is faithful
here because every number involved is an exact decimal constant.
-/

namespace HeuristicDocs

/-! ## JavaScript-style generic helpers -/

/-- Whitespace test matching the JavaScript `\s` class on the ASCII
range (space, tab, newline, carriage return, vertical tab, form feed). -/
def isSpaceJS (c : Char) : Bool :=
  c == ' ' || c == '\t' || c == '\n' || c == '\r' || c == '\x0b' || c == '\x0c'

/-- Trim of a character list on both ends, embedding
`String.prototype.trim`. -/
def trimJS (l : List Char) : List Char :=
  ((l.dropWhile isSpaceJS).reverse.dropWhile isSpaceJS).reverse

/-- String form of `trimJS`, embedding `String.prototype.trim`. -/
def stringTrimJS (s : String) : String :=
  ⟨trimJS s.data⟩

/-- First-occurrence deduplication: the order in which distinct values
first appear in the input.  This is the key order of a JavaScript `Map`
or `Set` filled by a left-to-right pass. -/
def firstDedup {α : Type} [DecidableEq α] : List α → List α
  | [] => []
  | c :: rest => c :: firstDedup (rest.filter (fun x => x ≠ c))
termination_by l => l.length
decreasing_by
  simp only [List.length_cons]
  exact Nat.lt_succ_of_le (List.length_filter_le _ _)

/-- Embedding of `Array.prototype.indexOf`: the zero-based position of
the first occurrence, `-1` when absent. -/
def jsIndexOfAux {α : Type} [DecidableEq α] : List α → α → Nat → Int
  | [], _, _ => -1
  | x :: rest, s, i => if x = s then (i : Int) else jsIndexOfAux rest s (i + 1)

/-- Embedding of `Array.prototype.indexOf` (searching from position 0). -/
def jsIndexOf {α : Type} [DecidableEq α] (l : List α) (s : α) : Int :=
  jsIndexOfAux l s 0

/-- Insertion step of a stable comparator sort: `x` is placed before
the first element `y` with `cmp x y ≤ 0`. -/
def insertCmp {α : Type} (cmp : α → α → Int) (x : α) : List α → List α
  | [] => [x]
  | y :: ys => if cmp x y ≤ 0 then x :: y :: ys else y :: insertCmp cmp x ys

/-- Stable comparator sort, embedding `Array.prototype.sort` with a
consistent comparator (ECMA-262 requires the sort to be stable; for a
consistent comparator every stable sort produces the same output, so a
stable insertion sort is a faithful model). -/
def sortStable {α : Type} (cmp : α → α → Int) : List α → List α
  | [] => []
  | x :: xs => insertCmp cmp x (sortStable cmp xs)

/-- Splitting a character list at every occurrence of a separator
character, embedding `String.prototype.split` with a one-character
separator: `n` separators produce `n + 1` (possibly empty) pieces. -/
def splitOnChar (sep : Char) : List Char → List (List Char)
  | [] => [[]]
  | c :: rest =>
    if c == sep then [] :: splitOnChar sep rest
    else
      match splitOnChar sep rest with
      | [] => [[c]]
      | l :: ls => (c :: l) :: ls

/-- String form of `splitOnChar`. -/
def jsSplitOnChar (sep : Char) (s : String) : List String :=
  (splitOnChar sep s.data).map (fun l => ⟨l⟩)

/-- Splitting a character list at every newline, embedding
`String.prototype.split("\n")`. -/
def splitLines (l : List Char) : List (List Char) :=
  splitOnChar '\n' l

/-- Embedding of `String.prototype.startsWith`. -/
def jsStartsWith (s pre : String) : Bool :=
  pre.data.isPrefixOf s.data

/-- Embedding of a global one-character regex replacement: the
hyphen-to-space rewrite the source applies to display names. -/
def jsReplaceChar (a b : Char) (s : String) : String :=
  ⟨s.data.map (fun c => if c == a then b else c)⟩

/-! ## Element catalog (`src/lib/analyzer/element-mapping.ts`) -/

/-- The static `ELEMENT_HEURISTIC_MAP` table.  Component elements are
embedded as plain strings because the route hands the matcher raw,
unvalidated JSON strings; the `| _ => []` arm embeds the defensive
`ELEMENT_HEURISTIC_MAP[element] || []` fallback for unknown tags. -/
def elementHeuristicMap : String → List String
  | "text-input" =>
    ["/meaningful-content/form-labels",
     "/meaningful-content/form-label-visibility",
     "/meaningful-content/error-text",
     "/keyboard-interaction/visible-focus",
     "/keyboard-interaction/focus-order",
     "/quality-of-life/target-areas",
     "/quality-of-life/error-suggestions",
     "/quality-of-life/session-extension",
     "/readability/color-contrast",
     "/readability/padding-spacing",
     "/screen-reader-support/form-errors"]
  | "checkbox" =>
    ["/meaningful-content/form-labels",
     "/meaningful-content/form-label-visibility",
     "/keyboard-interaction/visible-focus",
     "/keyboard-interaction/focus-order",
     "/quality-of-life/target-areas",
     "/readability/color-contrast",
     "/readability/use-of-color"]
  | "radio" =>
    ["/meaningful-content/form-labels",
     "/meaningful-content/form-label-visibility",
     "/keyboard-interaction/visible-focus",
     "/keyboard-interaction/focus-order",
     "/quality-of-life/target-areas",
     "/readability/color-contrast",
     "/readability/use-of-color"]
  | "textarea" =>
    ["/meaningful-content/form-labels",
     "/meaningful-content/form-label-visibility",
     "/meaningful-content/error-text",
     "/keyboard-interaction/visible-focus",
     "/keyboard-interaction/focus-order",
     "/quality-of-life/target-areas",
     "/quality-of-life/error-suggestions",
     "/quality-of-life/session-extension",
     "/readability/color-contrast",
     "/readability/padding-spacing",
     "/readability/horizontal-scroll",
     "/screen-reader-support/form-errors"]
  | "select" =>
    ["/meaningful-content/form-labels",
     "/meaningful-content/form-label-visibility",
     "/keyboard-interaction/visible-focus",
     "/keyboard-interaction/focus-order",
     "/quality-of-life/target-areas",
     "/readability/color-contrast"]
  | "file-upload" =>
    ["/meaningful-content/form-labels",
     "/meaningful-content/form-label-visibility",
     "/meaningful-content/error-text",
     "/keyboard-interaction/visible-focus",
     "/keyboard-interaction/focus-order",
     "/quality-of-life/target-areas",
     "/screen-reader-support/form-errors"]
  | "toggle" =>
    ["/meaningful-content/form-labels",
     "/meaningful-content/form-label-visibility",
     "/keyboard-interaction/visible-focus",
     "/keyboard-interaction/focus-order",
     "/quality-of-life/target-areas",
     "/readability/color-contrast",
     "/readability/use-of-color"]
  | "button" =>
    ["/page-structure/cta-buttons",
     "/meaningful-content/single-cta",
     "/keyboard-interaction/visible-focus",
     "/keyboard-interaction/focus-order",
     "/quality-of-life/target-areas",
     "/readability/color-contrast",
     "/readability/padding-spacing"]
  | "link" =>
    ["/page-structure/cta-links",
     "/meaningful-content/meaningful-link-text",
     "/keyboard-interaction/visible-focus",
     "/keyboard-interaction/focus-order",
     "/keyboard-interaction/hover-and-focus",
     "/quality-of-life/target-areas",
     "/readability/link-visibility",
     "/readability/color-contrast"]
  | "dropdown" =>
    ["/keyboard-interaction/visible-focus",
     "/keyboard-interaction/focus-order",
     "/keyboard-interaction/keyboard-traps",
     "/quality-of-life/target-areas",
     "/readability/color-contrast"]
  | "menu" =>
    ["/meaningful-content/recurring-nav",
     "/keyboard-interaction/visible-focus",
     "/keyboard-interaction/focus-order",
     "/keyboard-interaction/keyboard-traps",
     "/page-structure/content-regions",
     "/quality-of-life/target-areas",
     "/readability/color-contrast"]
  | "modal" =>
    ["/page-structure/page-titles",
     "/keyboard-interaction/visible-focus",
     "/keyboard-interaction/focus-order",
     "/keyboard-interaction/keyboard-traps",
     "/quality-of-life/target-areas",
     "/readability/color-contrast",
     "/screen-reader-support/status-messages"]
  | "tabs" =>
    ["/keyboard-interaction/visible-focus",
     "/keyboard-interaction/focus-order",
     "/keyboard-interaction/keyboard-traps",
     "/quality-of-life/target-areas",
     "/readability/color-contrast",
     "/readability/use-of-color"]
  | "accordion" =>
    ["/keyboard-interaction/visible-focus",
     "/keyboard-interaction/focus-order",
     "/quality-of-life/target-areas",
     "/readability/color-contrast",
     "/readability/use-of-color"]
  | "heading" =>
    ["/page-structure/page-titles",
     "/page-structure/heading-hierarchy",
     "/page-structure/content-regions",
     "/readability/color-contrast",
     "/readability/padding-spacing"]
  | "paragraph" =>
    ["/readability/color-contrast",
     "/readability/padding-spacing",
     "/readability/horizontal-scroll",
     "/screen-reader-support/language"]
  | "list" =>
    ["/page-structure/list-groupings",
     "/page-structure/content-regions",
     "/readability/color-contrast",
     "/readability/padding-spacing"]
  | "table" =>
    ["/page-structure/heading-hierarchy",
     "/readability/color-contrast",
     "/readability/padding-spacing",
     "/readability/horizontal-scroll",
     "/screen-reader-support/table-structure"]
  | "icon" =>
    ["/screen-reader-support/decorative-images",
     "/screen-reader-support/active-images",
     "/readability/informative-images",
     "/readability/color-contrast",
     "/readability/use-of-color",
     "/quality-of-life/target-areas"]
  | "image" =>
    ["/screen-reader-support/decorative-images",
     "/screen-reader-support/active-images",
     "/meaningful-content/images-of-text",
     "/readability/informative-images",
     "/readability/color-contrast",
     "/quality-of-life/target-areas"]
  | "video" =>
    ["/quality-of-life/video-captions",
     "/quality-of-life/audio-description",
     "/quality-of-life/transcript",
     "/quality-of-life/pause-animation",
     "/quality-of-life/target-areas",
     "/screen-reader-support/visual-audio-text"]
  | "audio" =>
    ["/quality-of-life/transcript",
     "/quality-of-life/pause-animation",
     "/quality-of-life/target-areas",
     "/screen-reader-support/visual-audio-text"]
  | _ => []

/-- One `Set.add` step of `getHeuristicsForElements`: a JavaScript
`Set` keeps first-insertion order and ignores re-insertions. -/
def setAdd (acc : List String) (h : String) : List String :=
  if h ∈ acc then acc else acc ++ [h]

/-- Embedding of `getHeuristicsForElements`: the union (in
first-production order, without duplicates) of the catalog rows of the
given elements. -/
def getHeuristicsForElements (elements : List String) : List String :=
  elements.foldl (fun acc element => (elementHeuristicMap element).foldl setAdd acc) []

/-! ## Data model (`src/lib/types/analyzer.ts`) -/

/-- The `keywords` frontmatter field is loosely typed in the source
(`unknown`): an array, a comma-separated string, or anything else. -/
inductive FrontmatterKeywords where
  | arr (xs : List String)
  | str (s : String)
  | missing
deriving DecidableEq

/-- The frontmatter fields read by the matcher.  `owner` is optional in
the source (`document.frontmatter.owner || []`). -/
structure Frontmatter where
  title : String
  owner : Option (List String)
  keywords : FrontmatterKeywords
deriving DecidableEq

/-- A document returned by the repository lookup `getDocument`. -/
structure DocumentRec where
  frontmatter : Frontmatter
deriving DecidableEq

/-- The `HeuristicMatch` record of `src/lib/types/analyzer.ts`. -/
structure HeuristicMatch where
  slug : String
  category : String
  title : String
  owner : List String
  keywords : List String
  preview : String
deriving DecidableEq

/-- The `DetectedComponent` record.  `confidence` is optional; the
exact decimal confidence values are embedded as rationals. -/
structure DetectedComponent where
  summary : String
  elements : List String
  confidence : Option ℚ
deriving DecidableEq

/-- The `AnalysisResult` record: the sole input of the export engine. -/
structure AnalysisResult where
  detected : DetectedComponent
  heuristics : List HeuristicMatch
deriving DecidableEq

/-- The external repository boundary: `getDocument` resolves a document
slug to frontmatter, `rawContent` is the raw MDX text read by the
preview extractor.  `none` stands for a failed resolution (not-found,
parse error, or a thrown read error — the matcher catches them all). -/
structure HeuristicRepo where
  getDocument : String → Option DocumentRec
  rawContent : String → Option String

/-! ## Keyword normalization (`parseKeywords`) -/

/-- Embedding of `parseKeywords`: arrays pass through unchanged, a
string is split on commas with each piece trimmed, anything else gives
the empty array. -/
def parseKeywords : FrontmatterKeywords → List String
  | .arr xs => xs
  | .str s => (jsSplitOnChar ',' s).map stringTrimJS
  | .missing => []

/-! ## Preview extraction (`extractPreviewText`)

The regular expression
`/##\s+What this means\s*\n\n([\s\S]*?)(?=\n##|$)/i` is embedded by
direct computation of its unique leftmost match: `\s+` must stop
exactly at the first non-whitespace character (the literal starts with
a non-whitespace letter), the greedy `\s*` places the mandatory blank
line at the last `"\n\n"` of the whitespace run following the literal,
and the lazy capture with its look-ahead stops at the first `"\n##"`
after the capture start (or at the end of the text). -/

/-- Index of the last `"\n\n"` pair inside a character run (the
backtracking position chosen by the greedy `\s*` before the literal
`\n\n` of the section regex), if any. -/
def lastNlNl (run : List Char) : Option Nat :=
  (List.range run.length).foldl
    (fun acc j => if run[j]? == some '\n' && run[j+1]? == some '\n' then some j else acc)
    none

/-- The section-marker literal, lowercased for the case-insensitive
(`/i`) comparison. -/
def markerLiteral : List Char := "what this means".toList

/-- One attempt to match the section-marker regex at the head of the
given text, returning the remainder of the text at the capture start
on success. -/
def matchMarkerAt : List Char → Option (List Char)
  | '#' :: '#' :: rest =>
    let ws := rest.takeWhile isSpaceJS
    let rest2 := rest.dropWhile isSpaceJS
    if ws.length == 0 then none
    else if (rest2.take 15).map Char.toLower == markerLiteral then
      let rest3 := rest2.drop 15
      let run := rest3.takeWhile isSpaceJS
      match lastNlNl run with
      | some j => some (rest3.drop (j + 2))
      | none => none
    else none
  | _ => none

/-- Leftmost-match search of the section-marker regex: the capture
start for the first position at which the marker pattern matches. -/
def findCaptureStart : List Char → Option (List Char)
  | [] => none
  | c :: rest =>
    match matchMarkerAt (c :: rest) with
    | some r => some r
    | none => findCaptureStart rest

/-- The lazy capture `([\s\S]*?)(?=\n##|$)`: everything up to the first
`"\n##"`, or the whole remainder when none occurs. -/
def captureLazy : List Char → List Char
  | [] => []
  | '\n' :: '#' :: '#' :: _ => []
  | c :: rest => c :: captureLazy rest

/-- The first paragraph of a text: everything before the first blank
line, embedding `.split("\n\n")[0]`. -/
def firstParagraph : List Char → List Char
  | [] => []
  | '\n' :: '\n' :: _ => []
  | c :: rest => c :: firstParagraph rest

/-- Embedding of `String.prototype.lastIndexOf(" ")`: the largest index
holding a space character, `-1` when there is none. -/
def lastIndexOfSpace (l : List Char) : Int :=
  (List.range l.length).foldl
    (fun (acc : Int) (j : Nat) => if l[j]? == some ' ' then (j : Int) else acc) (-1)

/-- The cleaned first paragraph of the captured section text:
`match[1].trim().split("\n\n")[0].replace(...).trim()` applied to the
capture starting at the given remainder. -/
def previewContent (captureStart : List Char) : List Char :=
  trimJS ((firstParagraph (trimJS (captureLazy captureStart))).map
    (fun c => if c == '\n' then ' ' else c))

/-- The body of `extractPreviewText` applied to the raw MDX text: find
the section, take its first paragraph (newlines replaced by spaces,
trimmed), and truncate to 150 characters at the last space, appending
an ellipsis. -/
def extractPreviewFromRaw (rawMdx : List Char) : List Char :=
  match findCaptureStart rawMdx with
  | none => []
  | some rest =>
    let captured := captureLazy rest
    if captured.length == 0 then []
    else
      let content := previewContent rest
      if content.length ≤ 150 then content
      else
        let truncated := content.take 150
        let lastSpace := lastIndexOfSpace truncated
        if 0 < lastSpace then truncated.take lastSpace.toNat ++ "...".toList
        else truncated ++ "...".toList

/-- Embedding of `extractPreviewText`: a failed raw-content read (the
`catch` branch) yields the empty string, otherwise the extraction runs
on the text. -/
def extractPreviewText (rawContent : Option String) : String :=
  match rawContent with
  | none => ""
  | some raw => ⟨extractPreviewFromRaw raw.data⟩

/-! ## The matcher (`matchHeuristics`) -/

/-- The per-slug body of the `heuristicSlugs.map` in `matchHeuristics`:
convert the slug, resolve the document (`none` embeds both a `null`
return and a thrown error, which the source catches and turns into
`null`), derive the category from the slug, extract the preview, and
assemble the `HeuristicMatch`. -/
def resolveHeuristic (repo : HeuristicRepo) (slug : String) : Option HeuristicMatch :=
  let documentSlug := if jsStartsWith slug "/" then slug.drop 1 else slug
  match repo.getDocument documentSlug with
  | none => none
  | some document =>
    -- `slug.split("/").filter(Boolean)[0]`; the catalog only produces
    -- `/category/slug` strings, so the head always exists there.
    let category := ((jsSplitOnChar '/' slug).filter (fun s => !s.data.isEmpty)).headD ""
    let preview := extractPreviewText (repo.rawContent documentSlug)
    some { slug := slug
           category := category
           title := document.frontmatter.title
           owner := document.frontmatter.owner.getD []
           keywords := parseKeywords document.frontmatter.keywords
           preview := preview }

/-- One `Map.set` step on an association list with JavaScript `Map`
semantics: overwriting an existing key keeps its position, a new key is
appended. -/
def jsMapInsert (m : List (String × HeuristicMatch)) (k : String) (v : HeuristicMatch) :
    List (String × HeuristicMatch) :=
  if m.any (fun p => p.1 == k) then m.map (fun p => if p.1 == k then (k, v) else p)
  else m ++ [(k, v)]

/-- The `new Map(validHeuristics.map((h) => [h.slug, h]))` of the
matcher, built by the left-to-right insertion a `Map` constructor
performs. -/
def jsMapOfMatches (l : List HeuristicMatch) : List (String × HeuristicMatch) :=
  l.foldl (fun m h => jsMapInsert m h.slug h) []

/-- Step 5 of the matcher: `Array.from(new Map(...).values())`. -/
def dedupeBySlug (l : List HeuristicMatch) : List HeuristicMatch :=
  (jsMapOfMatches l).map Prod.snd

/-- The canonical category order derived from the `Documents` settings:
the `href` fields (with the leading slash removed) of the six category
entries, in their configured display order (spacer entries carry no
`href` and are filtered out by the source). -/
def categoryOrder : List String :=
  ["keyboard-interaction", "meaningful-content", "page-structure",
   "quality-of-life", "readability", "screen-reader-support"]

/-- The category comparator of the matcher's step 7 (`aIndex` and
`bIndex` of the source are written out): both categories ranked →
difference of their positions; only one ranked → it comes first;
neither ranked → keep order. -/
def compareCat (a b : HeuristicMatch) : Int :=
  if jsIndexOf categoryOrder a.category != -1 && jsIndexOf categoryOrder b.category != -1 then
    jsIndexOf categoryOrder a.category - jsIndexOf categoryOrder b.category
  else if jsIndexOf categoryOrder a.category != -1 then -1
  else if jsIndexOf categoryOrder b.category != -1 then 1
  else 0

/-- Embedding of `matchHeuristics`: catalog lookup, per-slug resolution
(`Promise.all` preserves order; failed resolutions become `none` and
are filtered out), dedup by slug, stable category sort.  The function
is total: no failure escapes it. -/
def matchHeuristics (repo : HeuristicRepo) (elements : List String) : List HeuristicMatch :=
  let heuristicSlugs := getHeuristicsForElements elements
  let validHeuristics := heuristicSlugs.filterMap (resolveHeuristic repo)
  let uniqueHeuristics := dedupeBySlug validHeuristics
  sortStable compareCat uniqueHeuristics

/-! ## Detection summarizer (analyzer API route) -/

/-- The `inputType` parameter of `generateSummary`. -/
inductive InputSource where
  | image
  | description
deriving DecidableEq

/-- One counting step of the `elementCounts` `Map` of
`generateSummary`: `set(element, (get(element) || 0) + 1)`. -/
def jsCountInsert (m : List (String × Nat)) (k : String) : List (String × Nat) :=
  if m.any (fun p => p.1 == k) then m.map (fun p => if p.1 == k then (p.1, p.2 + 1) else p)
  else m ++ [(k, 1)]

/-- The element-count `Map` of `generateSummary`, keyed in
first-occurrence order. -/
def jsCountMap (elements : List String) : List (String × Nat) :=
  elements.foldl jsCountInsert []

/-- Embedding of `generateSummary` from the analyzer API route. -/
def generateSummary (elements : List String) (inputType : InputSource) : String :=
  if elements.length == 0 then
    match inputType with
    | .image => "No UI elements detected in the image"
    | .description => "No UI elements detected in the description"
  else
    let elementCounts := jsCountMap elements
    let parts := elementCounts.map (fun p =>
      toString p.2 ++ " " ++ jsReplaceChar '-' ' ' p.1 ++ (if p.2 > 1 then "s" else ""))
    let componentType :=
      match inputType with
      | .image => "Component"
      | .description => "Component description"
    if parts.length == 1 then componentType ++ " with " ++ parts.headD ""
    else if parts.length == 2 then
      componentType ++ " with " ++ parts.headD "" ++ " and " ++ parts.getD 1 ""
    else
      componentType ++ " with " ++ String.intercalate ", " parts.dropLast
        ++ ", and " ++ parts.getLastD ""

/-- Embedding of `calculateConfidence` from the analyzer API route. -/
def calculateConfidence (elements : List String) : ℚ :=
  if elements.length == 0 then 0.0
  else if elements.length == 1 then 0.7
  else if elements.length ≤ 3 then 0.85
  else 0.95

/-! ## Markdown export (`generateMarkdownChecklist`) -/

/-- The site base URL from `settings/main` (`export const url = ...`). -/
def siteUrl : String := "https://a11y-heuristics.vercel.app"

/-- The `categoryNames` table of the export generator. -/
def categoryNamesLookup : List (String × String) :=
  [("keyboard-interaction", "Keyboard Interaction"),
   ("meaningful-content", "Meaningful Content"),
   ("page-structure", "Page Structure"),
   ("quality-of-life", "Quality of Life"),
   ("readability", "Readability"),
   ("screen-reader-support", "Screen Reader Support")]

/-- The `categoryNames[categorySlug] || categorySlug` lookup: unmapped
slugs render verbatim (no mapped display name is falsy, so `||` only
fires on a missing key). -/
def categoryDisplayName (categorySlug : String) : String :=
  match categoryNamesLookup.find? (fun p => p.1 == categorySlug) with
  | some p => p.2
  | none => categorySlug

/-- One insertion into the category-grouping `Map` used by both export
formats: push onto the existing bucket, or append a fresh bucket. -/
def jsGroupInsert (m : List (String × List HeuristicMatch)) (k : String) (h : HeuristicMatch) :
    List (String × List HeuristicMatch) :=
  if m.any (fun p => p.1 == k) then m.map (fun p => if p.1 == k then (p.1, p.2 ++ [h]) else p)
  else m ++ [(k, [h])]

/-- The `categorizedHeuristics` `Map` of the export generator: buckets
keyed by category, keys in first-appearance order, each bucket in input
order. -/
def categorize (heuristics : List HeuristicMatch) : List (String × List HeuristicMatch) :=
  heuristics.foldl (fun m h => jsGroupInsert m h.category h) []

/-- One task-list line of the Markdown checklist (with its trailing
newline), verbatim from the source template. -/
def checklistLine (h : HeuristicMatch) : String :=
  "- [ ] **" ++ h.title ++ "** - [View Guide](" ++ siteUrl ++ "/docs" ++ h.slug ++ ")\n"

/-- Embedding of `generateMarkdownChecklist`.  The generation timestamp
(`new Date().toISOString().split("T")[0]`) is ambient real time, passed
in as a parameter. -/
def generateMarkdownChecklist (timestamp : String) (result : AnalysisResult) : String :=
  let header := "# Accessibility Heuristics Checklist\n\n"
    ++ "Generated: " ++ timestamp ++ "\n"
    ++ "Component: " ++ result.detected.summary ++ "\n\n"
  let sections := (categorize result.heuristics).map (fun p =>
    "## " ++ categoryDisplayName p.1 ++ "\n\n"
    ++ String.join (p.2.map checklistLine) ++ "\n")
  header ++ String.join sections

/-- The characters of one checklist line, without its trailing
newline. -/
def checklistLineChars (h : HeuristicMatch) : List Char :=
  ("- [ ] **" ++ h.title ++ "** - [View Guide](" ++ siteUrl ++ "/docs" ++ h.slug ++ ")").data

/-- The lines of one category section of the Markdown checklist: the
heading, a blank line, one checklist line per heuristic, and the blank
line that separates sections. -/
def sectionLinesChars (p : String × List HeuristicMatch) : List (List Char) :=
  ("## " ++ categoryDisplayName p.1).data :: [] :: (p.2.map checklistLineChars ++ [[]])

/-- The lines of the whole Markdown checklist.  Every line of the
generated string is newline-terminated, so the document is exactly the
newline-join of these lines. -/
def mdLines (timestamp : String) (result : AnalysisResult) : List (List Char) :=
  ("# Accessibility Heuristics Checklist").data :: [] ::
    ("Generated: " ++ timestamp).data ::
    ("Component: " ++ result.detected.summary).data :: [] ::
    (categorize result.heuristics).flatMap sectionLinesChars

/-- Newline-join: each line followed by one newline character. -/
def joinNl (lines : List (List Char)) : List Char :=
  (lines.map (fun l => l ++ ['\n'])).flatten

/-! ## PDF layout simulation (`generatePDFChecklist`)

The vertical-cursor layout of the PDF export is embedded as a pure
simulation: jsPDF text wrapping (`splitTextToSize`) is an opaque font
metric, passed in as an arbitrary function from text and available
width to a wrapped-line count, and each `addCheckboxItem` call emits a
placement record holding the page and vertical position at which the
checkbox rectangle and the first wrapped text line are drawn.  Drawing
calls themselves (`rect`, `text`, `textWithLink`) never move the
cursor or change the page, so the simulation tracks exactly the state
the source mutates: `currentY` and the current page. -/

/-- A4 portrait page height in millimetres. -/
def pageHeightA4 : ℚ := 297

/-- A4 portrait page width in millimetres. -/
def pageWidthA4 : ℚ := 210

/-- The fixed 20 mm page margin of the PDF export. -/
def pdfMargin : ℚ := 20

/-- `contentWidth = pageWidth - margin * 2`. -/
def pdfContentWidth : ℚ := pageWidthA4 - pdfMargin * 2

/-- The mutable layout state of the PDF generator: the current page
(starting at 0) and the vertical cursor `currentY`. -/
structure PdfCursor where
  page : Nat
  y : ℚ
deriving DecidableEq

/-- An opaque text-wrapping metric standing for
`doc.splitTextToSize(text, width).length`. -/
def WrapFn : Type := String → ℚ → Nat

/-- Embedding of the `addText` helper: wrap, break the page when the
wrapped block would overrun the bottom margin, draw, and advance the
cursor by the block height plus 3 mm. -/
def addTextSim (wrap : WrapFn) (text : String) (fontSize : ℚ) (st : PdfCursor) : PdfCursor :=
  let lineCount := wrap text pdfContentWidth
  let lineHeight := fontSize * (1 / 2)
  let st1 := if pageHeightA4 - pdfMargin < st.y + lineCount * lineHeight
             then { page := st.page + 1, y := pdfMargin } else st
  { page := st1.page, y := st1.y + lineCount * lineHeight + 3 }

/-- The positions at which one checklist item's checkbox rectangle and
first wrapped text line are drawn. -/
structure ItemPlacement where
  checkboxPage : Nat
  checkboxTop : ℚ
  textPage : Nat
  textBaseline : ℚ
deriving DecidableEq

/-- Embedding of the `addCheckboxItem` helper: break the page when one
text line plus 5 mm would overrun the bottom margin, then draw the
checkbox rectangle at `currentY - 4 + 1` and the wrapped title text at
`currentY` — both on the page current after the single break check —
and advance the cursor below the wrapped text. -/
def addCheckboxItemSim (wrap : WrapFn) (text : String) (st : PdfCursor) :
    ItemPlacement × PdfCursor :=
  let checkboxSize : ℚ := 4
  let checkboxPadding : ℚ := 2
  let fontSize : ℚ := 11
  let lineHeight := fontSize * (1 / 2)
  let st1 := if pageHeightA4 - pdfMargin < st.y + lineHeight + 5
             then { page := st.page + 1, y := pdfMargin } else st
  let textLineCount := wrap text (pdfContentWidth - checkboxSize - checkboxPadding - 2)
  ({ checkboxPage := st1.page
     checkboxTop := st1.y - checkboxSize + 1
     textPage := st1.page
     textBaseline := st1.y },
   { page := st1.page, y := st1.y + textLineCount * lineHeight + 4 })

/-- A bare `currentY += d` of the source. -/
def bumpY (d : ℚ) (st : PdfCursor) : PdfCursor :=
  { st with y := st.y + d }

/-- The header portion of `generatePDFChecklist` (everything before
the category loop), in source order: title, date, summary section,
optional confidence line, optional detected-elements block, and the
separator spacing. -/
def pdfHeaderSim (wrap : WrapFn) (timestamp : String) (detected : DetectedComponent) : PdfCursor :=
  let st := addTextSim wrap "Accessibility Heuristics Checklist" 20 { page := 0, y := pdfMargin }
  let st := bumpY 2 st
  let st := addTextSim wrap ("Generated on " ++ timestamp) 10 st
  let st := bumpY 5 st
  let st := addTextSim wrap "Analysis Summary" 14 st
  let st := addTextSim wrap detected.summary 11 st
  let st :=
    match detected.confidence with
    | some c => addTextSim wrap ("Confidence: " ++ toString (round (c * 100)) ++ "%") 10 st
    | none => st
  let st :=
    if detected.elements.length > 0 then
      let st := addTextSim wrap "Detected Elements:" 11 st
      addTextSim wrap
        (String.intercalate ", " (detected.elements.map (jsReplaceChar '-' ' '))) 10 st
    else st
  bumpY 8 (bumpY 5 st)

/-- One pass of the category loop of `generatePDFChecklist`: heading,
2 mm spacing, one checkbox item per heuristic, 3 mm trailing spacing;
the emitted item placements are collected in order. -/
def addCategorySim (wrap : WrapFn) (p : String × List HeuristicMatch)
    (acc : List ItemPlacement × PdfCursor) : List ItemPlacement × PdfCursor :=
  let st := addTextSim wrap (categoryDisplayName p.1) 14 acc.2
  let st := bumpY 2 st
  let res := p.2.foldl
    (fun (a : List ItemPlacement × PdfCursor) h =>
      let pr := addCheckboxItemSim wrap h.title a.2
      (a.1 ++ [pr.1], pr.2))
    (acc.1, st)
  (res.1, bumpY 3 res.2)

/-- The full layout simulation of `generatePDFChecklist` up to the end
of the category loop (the footer below it draws fixed-position text
and emits no checklist item), returning every item placement together
with the final cursor. -/
def pdfLayoutSim (wrap : WrapFn) (timestamp : String) (result : AnalysisResult) :
    List ItemPlacement × PdfCursor :=
  (categorize result.heuristics).foldl (fun acc p => addCategorySim wrap p acc)
    ([], pdfHeaderSim wrap timestamp result.detected)

/-! ## Match route validation (`app/api/analyzer/match/route.ts`) -/

/-- The status code produced by the match route's input validation:
a missing `elements` field and an empty array are both rejected with
400 before `matchHeuristics` is invoked; otherwise the route proceeds
(200 on the success path). -/
def matchRouteStatus (body : Option (List String)) : Nat :=
  match body with
  | none => 400
  | some elements => if elements.length == 0 then 400 else 200

/-! ## Spec-side definitions

The following definitions are written from the specification's words
(not from the source) and are used to state refinement claims against
the source-derived definitions above. -/

/-- Modelled from the spec (§4.4): group elements by tag in order of
first appearance, with occurrence counts. -/
def specGroupCounts (elements : List String) : List (String × Nat) :=
  (firstDedup elements).map (fun t => (t, elements.count t))

/-- Modelled from the spec (§4.4): the per-tag phrase — count, display
name with separators replaced by spaces, a plural `s` exactly when the
count exceeds one. -/
def specPhrase (tag : String) (count : Nat) : String :=
  toString count ++ " " ++ jsReplaceChar '-' ' ' tag ++ (if count > 1 then "s" else "")

/-- Modelled from the spec (§4.4): one phrase as-is, two joined by
`" and "`, three or more comma-joined with `", and "` before the last. -/
def specJoinPhrases : List String → String
  | [] => ""
  | [p] => p
  | [p, q] => p ++ " and " ++ q
  | parts => String.intercalate ", " parts.dropLast ++ ", and " ++ parts.getLastD ""

/-- The canonical rank of a category: its position in the canonical
order, or `none` for a category outside it. -/
def canonicalRank (c : String) : Option Nat :=
  if jsIndexOf categoryOrder c = -1 then none
  else some (jsIndexOf categoryOrder c).toNat

/-- The ordering the spec claims of the matcher output: ranked
categories in non-decreasing rank, unranked categories after every
ranked one. -/
def catRankLe (a b : HeuristicMatch) : Prop :=
  match canonicalRank a.category, canonicalRank b.category with
  | some i, some j => i ≤ j
  | some _, none => True
  | none, some _ => False
  | none, none => True

/-! ## Sample repository states (used by witnesses) -/

/-- A frontmatter document used as a concrete repository entry. -/
def sampleDoc : DocumentRec :=
  ⟨⟨"Are call-to-action buttons clear?", some ["designer"], .str "cta, buttons"⟩⟩

/-- A repository state in which exactly one document slug resolves and
every raw-content read fails. -/
def sampleRepo : HeuristicRepo :=
  ⟨fun s => if s = "page-structure/cta-buttons" then some sampleDoc else none, fun _ => none⟩

/-- A repository state in which every document slug resolves. -/
def totalRepo : HeuristicRepo :=
  ⟨fun s => some ⟨⟨s, none, .missing⟩⟩, fun _ => none⟩

/-! ## Lemmas about trimming -/

theorem dropWhile_idem {α : Type} (p : α → Bool) (l : List α) :
    (l.dropWhile p).dropWhile p = l.dropWhile p := by
  induction l with
  | nil => rfl
  | cons c t ih =>
    by_cases hp : p c
    · simpa [List.dropWhile_cons, hp] using ih
    · simp [List.dropWhile_cons, hp]

theorem head?_dropWhile_false {α : Type} (p : α → Bool) (l : List α) (c : α)
    (h : (l.dropWhile p).head? = some c) : p c = false := by
  induction l with
  | nil => simp at h
  | cons a t ih =>
    by_cases hp : p a
    · exact ih (by simpa [List.dropWhile_cons, hp] using h)
    · simp [List.dropWhile_cons, hp] at h
      subst h
      simpa using hp

theorem getLast?_dropWhile {α : Type} (p : α → Bool) (l : List α)
    (h : l.dropWhile p ≠ []) : (l.dropWhile p).getLast? = l.getLast? := by
  induction l with
  | nil => simp at h
  | cons a t ih =>
    by_cases hp : p a
    · have ht : t.dropWhile p ≠ [] := by simpa [List.dropWhile_cons, hp] using h
      rw [List.dropWhile_cons, if_pos hp, ih ht]
      cases t with
      | nil => simp at ht
      | cons b t2 => rw [List.getLast?_cons_cons]
    · simp [List.dropWhile_cons, hp]

theorem dropWhile_of_trimJS (l : List Char) :
    (trimJS l).dropWhile isSpaceJS = trimJS l := by
  unfold trimJS
  set A := l.dropWhile isSpaceJS with hA
  set B := A.reverse.dropWhile isSpaceJS with hB
  cases hBr : B.reverse with
  | nil => simp [hBr]
  | cons c t =>
    have hBne : B ≠ [] := by
      intro hh
      rw [hh] at hBr
      simp at hBr
    have hc : B.reverse.head? = some c := by rw [hBr]; rfl
    have hc2 : B.getLast? = some c := by
      rwa [List.head?_reverse] at hc
    have hc3 : A.reverse.getLast? = some c := by
      rw [← getLast?_dropWhile isSpaceJS A.reverse (by rwa [← hB]), ← hB]
      exact hc2
    have hc4 : A.head? = some c := by
      rwa [List.getLast?_reverse] at hc3
    have hAne : A ≠ [] := by
      intro hh
      rw [hh] at hc4
      simp at hc4
    have hcfalse : isSpaceJS c = false := by
      apply head?_dropWhile_false isSpaceJS l c
      rw [← hA]
      exact hc4
    simp [List.dropWhile_cons, hcfalse]

theorem trimJS_idem (l : List Char) : trimJS (trimJS l) = trimJS l := by
  conv_lhs => rw [trimJS]
  rw [dropWhile_of_trimJS]
  show ((trimJS l).reverse.dropWhile isSpaceJS).reverse = trimJS l
  unfold trimJS
  rw [List.reverse_reverse, dropWhile_idem]

theorem stringTrimJS_idem (s : String) : stringTrimJS (stringTrimJS s) = stringTrimJS s := by
  unfold stringTrimJS
  exact congrArg String.mk (trimJS_idem s.data)

/-! ## Claim theorems: confidence, keyword parsing, empty input -/

/-- C6: `calculateConfidence` returns exactly 0.0 for an empty element
list, 0.7 for every 1-element list, 0.85 for every list of length 2 or
3, and 0.95 for every list of length 4 or more. -/
theorem calculateConfidence_boundary (l : List String) :
    (l.length = 0 → calculateConfidence l = 0.0) ∧
    (l.length = 1 → calculateConfidence l = 0.7) ∧
    (2 ≤ l.length ∧ l.length ≤ 3 → calculateConfidence l = 0.85) ∧
    (4 ≤ l.length → calculateConfidence l = 0.95) := by
  unfold calculateConfidence
  refine ⟨fun h => ?_, fun h => ?_, fun h => ?_, fun h => ?_⟩
  · simp [h]
  · simp [h]
  · have h0 : l.length ≠ 0 := by omega
    have h1 : l.length ≠ 1 := by omega
    simp [h0, h1, h.2]
  · have h0 : l.length ≠ 0 := by omega
    have h1 : l.length ≠ 1 := by omega
    have h3 : ¬ l.length ≤ 3 := by omega
    simp [h0, h1, h3]

/-- Witness for C6 at the four concrete list sizes. -/
theorem calculateConfidence_boundary_witness :
    calculateConfidence [] = 0.0 ∧ calculateConfidence ["a"] = 0.7 ∧
    calculateConfidence ["a", "b"] = 0.85 ∧ calculateConfidence ["a", "b", "c"] = 0.85 ∧
    calculateConfidence ["a", "b", "c", "d"] = 0.95 :=
  ⟨(calculateConfidence_boundary []).1 rfl,
   (calculateConfidence_boundary ["a"]).2.1 rfl,
   (calculateConfidence_boundary ["a", "b"]).2.2.1 (by decide),
   (calculateConfidence_boundary ["a", "b", "c"]).2.2.1 (by decide),
   (calculateConfidence_boundary ["a", "b", "c", "d"]).2.2.2 (by decide)⟩

/-- C9 counterexample: an array-valued `keywords` frontmatter field is
returned as-is, so an untrimmed element survives untrimmed, refuting
the claim that array inputs also come out element-wise trimmed. -/
theorem parseKeywords_array_untrimmed :
    parseKeywords (.arr [" focus "]) = [" focus "] ∧ ¬ stringTrimJS " focus " = " focus " := by
  refine ⟨rfl, fun h => ?_⟩
  have hd := congrArg String.data h
  exact absurd hd (by decide)

/-- C9 (amended): a comma-separated string splits on commas with every
piece trimmed (so every output element is trimmed, by idempotence of
trimming); an array input is returned unchanged, with its elements not
trimmed; any other value yields the empty array. -/
theorem parseKeywords_normalizes (v : FrontmatterKeywords) :
    (∀ xs, v = .arr xs → parseKeywords v = xs) ∧
    (∀ s, v = .str s → parseKeywords v = (jsSplitOnChar ',' s).map stringTrimJS ∧
      ∀ k ∈ parseKeywords v, stringTrimJS k = k) ∧
    (v = .missing → parseKeywords v = []) := by
  refine ⟨fun xs h => by rw [h]; rfl,
          fun s h => ⟨by rw [h]; rfl, fun k hk => ?_⟩,
          fun h => by rw [h]; rfl⟩
  rw [h] at hk
  simp only [parseKeywords, List.mem_map] at hk
  obtain ⟨piece, _, hpiece⟩ := hk
  rw [← hpiece]
  exact stringTrimJS_idem piece

/-- Witness for C9's amended theorem on a concrete mixed input. -/
theorem parseKeywords_normalizes_witness :
    parseKeywords (.str " a , b") = ["a", "b"] ∧ stringTrimJS "a" = "a" :=
  ⟨by
    have h := ((parseKeywords_normalizes (.str " a , b")).2.1 " a , b" rfl).1
    rw [h]
    rfl,
   by
    have h := ((parseKeywords_normalizes (.str " a , b")).2.1 " a , b" rfl).2
    exact h "a" (by rw [((parseKeywords_normalizes (.str " a , b")).2.1 " a , b" rfl).1]; decide)⟩

/-- C10: the matcher applied to the empty element list returns the
empty list (and, being a total function, raises nothing), while the
match route rejects an empty `elements` array with status 400 before
the matcher would run. -/
theorem matchHeuristics_empty_input (repo : HeuristicRepo) :
    matchHeuristics repo [] = [] ∧ matchRouteStatus (some []) = 400 :=
  ⟨rfl, rfl⟩

/-! ## Lemmas about first-occurrence deduplication -/

theorem firstDedup_nil {α : Type} [DecidableEq α] : firstDedup ([] : List α) = [] := by
  rw [firstDedup]

theorem firstDedup_cons {α : Type} [DecidableEq α] (c : α) (rest : List α) :
    firstDedup (c :: rest) = c :: firstDedup (rest.filter (fun x => x ≠ c)) := by
  rw [firstDedup]

theorem mem_firstDedup_aux {α : Type} [DecidableEq α] (x : α) :
    ∀ (n : Nat) (l : List α), l.length ≤ n → (x ∈ firstDedup l ↔ x ∈ l) := by
  intro n
  induction n with
  | zero =>
    intro l hl
    have : l = [] := List.length_eq_zero.mp (Nat.le_zero.mp hl)
    subst this
    simp [firstDedup_nil]
  | succ n ih =>
    intro l hl
    cases l with
    | nil => simp [firstDedup_nil]
    | cons c rest =>
      rw [firstDedup_cons]
      have hlen : (rest.filter (fun y => y ≠ c)).length ≤ n := by
        have := List.length_filter_le (fun y => decide (y ≠ c)) rest
        simp only [List.length_cons] at hl
        omega
      by_cases hx : x = c
      · subst hx
        simp
      · simp only [List.mem_cons, ih _ hlen, List.mem_filter, decide_eq_true_eq]
        constructor
        · rintro (h | ⟨h1, _⟩)
          · exact Or.inl h
          · exact Or.inr h1
        · rintro (h | h)
          · exact Or.inl h
          · exact Or.inr ⟨h, hx⟩

theorem mem_firstDedup {α : Type} [DecidableEq α] (x : α) (l : List α) :
    x ∈ firstDedup l ↔ x ∈ l :=
  mem_firstDedup_aux x l.length l le_rfl

theorem firstDedup_concat_aux {α : Type} [DecidableEq α] (x : α) :
    ∀ (n : Nat) (l : List α), l.length ≤ n →
      firstDedup (l ++ [x]) = if x ∈ l then firstDedup l else firstDedup l ++ [x] := by
  intro n
  induction n with
  | zero =>
    intro l hl
    have : l = [] := List.length_eq_zero.mp (Nat.le_zero.mp hl)
    subst this
    simp [firstDedup_nil, firstDedup_cons]
  | succ n ih =>
    intro l hl
    cases l with
    | nil => simp [firstDedup_nil, firstDedup_cons]
    | cons c rest =>
      have hlen : (rest.filter (fun y => y ≠ c)).length ≤ n := by
        have := List.length_filter_le (fun y => decide (y ≠ c)) rest
        simp only [List.length_cons] at hl
        omega
      rw [List.cons_append, firstDedup_cons, List.filter_append, firstDedup_cons]
      by_cases hxc : x = c
      · subst hxc
        simp [List.mem_cons]
      · have hfx : List.filter (fun y => decide (y ≠ c)) [x] = [x] := by
          simp [hxc]
        rw [hfx, ih _ hlen]
        by_cases hxr : x ∈ rest
        · have : x ∈ rest.filter (fun y => y ≠ c) := by
            simp only [List.mem_filter, decide_eq_true_eq]
            exact ⟨hxr, hxc⟩
          simp [this, List.mem_cons, hxr, hxc]
        · have : x ∉ rest.filter (fun y => y ≠ c) := by
            simp only [List.mem_filter, decide_eq_true_eq]
            exact fun hh => hxr hh.1
          simp [this, List.mem_cons, hxr, hxc]

theorem firstDedup_concat {α : Type} [DecidableEq α] (l : List α) (x : α) :
    firstDedup (l ++ [x]) = if x ∈ l then firstDedup l else firstDedup l ++ [x] :=
  firstDedup_concat_aux x l.length l le_rfl

/-! ## The summarizer's counting map -/

theorem jsCountMap_concat (l : List String) (x : String) :
    jsCountMap (l ++ [x]) = jsCountInsert (jsCountMap l) x := by
  unfold jsCountMap
  rw [List.foldl_append]
  rfl

theorem jsCountMap_eq_specGroupCounts (elements : List String) :
    jsCountMap elements = specGroupCounts elements := by
  induction elements using List.reverseRecOn with
  | nil => simp [jsCountMap, specGroupCounts, firstDedup_nil]
  | append_singleton l x ih =>
    rw [jsCountMap_concat, ih]
    unfold specGroupCounts jsCountInsert
    rw [firstDedup_concat]
    by_cases hx : x ∈ l
    · have hany : (List.map (fun t => (t, l.count t)) (firstDedup l)).any
          (fun p => p.1 == x) = true := by
        rw [List.any_eq_true]
        exact ⟨(x, l.count x), List.mem_map_of_mem _ ((mem_firstDedup x l).mpr hx), by simp⟩
      rw [if_pos hx, if_pos hany, List.map_map]
      apply List.map_congr_left
      intro t _
      by_cases htx : t = x
      · subst htx
        simp [List.count_append]
      · have : (t == x) = false := by simpa using htx
        simp [Function.comp, this, List.count_append, htx]
    · have hany : (List.map (fun t => (t, l.count t)) (firstDedup l)).any
          (fun p => p.1 == x) = false := by
        simp only [List.any_eq_false]
        intro p hp
        obtain ⟨t, ht, hpt⟩ := List.mem_map.mp hp
        have htl : t ∈ l := (mem_firstDedup t l).mp ht
        have htx : t ≠ x := fun hh => hx (hh ▸ htl)
        rw [← hpt]
        simpa using htx
      rw [if_neg hx, hany, List.map_append]
      simp only [Bool.false_eq_true, if_false, List.map_cons, List.map_nil]
      congr 1
      · apply List.map_congr_left
        intro t ht
        have htl : t ∈ l := (mem_firstDedup t l).mp ht
        have htx : t ≠ x := fun hh => hx (hh ▸ htl)
        simp [List.count_append, htx]
      · have : l.count x = 0 := List.count_eq_zero_of_not_mem hx
        simp [List.count_append, this]

/-! ## Claim theorem: detection summary -/

theorem join_shape_eq_spec (componentType : String) (parts : List String) (h : parts ≠ []) :
    (if parts.length == 1 then componentType ++ " with " ++ parts.headD ""
     else if parts.length == 2 then
       componentType ++ " with " ++ parts.headD "" ++ " and " ++ parts.getD 1 ""
     else
       componentType ++ " with " ++ String.intercalate ", " parts.dropLast
         ++ ", and " ++ parts.getLastD "") =
    componentType ++ " with " ++ specJoinPhrases parts := by
  match parts with
  | [] => exact absurd rfl h
  | [p] => rfl
  | [p, q] =>
    have hs : specJoinPhrases [p, q] = p ++ " and " ++ q := rfl
    rw [hs]
    simp [String.append_assoc]
  | p :: q :: r :: rest =>
    have h1 : ((p :: q :: r :: rest).length == 1) = false := by
      simp [List.length_cons]
    have h2 : ((p :: q :: r :: rest).length == 2) = false := by
      simp [List.length_cons]
    have hs : specJoinPhrases (p :: q :: r :: rest) =
        String.intercalate ", " (p :: q :: r :: rest).dropLast ++ ", and "
          ++ (p :: q :: r :: rest).getLastD "" := rfl
    rw [h1, h2, hs]
    simp only [Bool.false_eq_true, if_false]
    simp [String.append_assoc]

/-- C7: for every non-empty element list, `generateSummary` groups
equal tags with counts in first-appearance order, renders each group
as count plus display name (hyphens to spaces, plural `s` exactly when
the count exceeds one), joins one phrase as-is, two with `" and "`,
three or more comma-separated with `", and "` before the last, behind
the prefix `"Component with "` (image) or
`"Component description with "` (description); on
`["button", "button", "link"]` the image summary is exactly
`"Component with 2 buttons and 1 link"`. -/
theorem generateSummary_spec (elements : List String) (h : elements ≠ []) :
    generateSummary elements .image =
      "Component with "
        ++ specJoinPhrases ((specGroupCounts elements).map (fun p => specPhrase p.1 p.2)) ∧
    generateSummary elements .description =
      "Component description with "
        ++ specJoinPhrases ((specGroupCounts elements).map (fun p => specPhrase p.1 p.2)) ∧
    generateSummary ["button", "button", "link"] .image =
      "Component with 2 buttons and 1 link" := by
  have hlen : (elements.length == 0) = false := by
    simp only [beq_eq_false_iff_ne, ne_eq, List.length_eq_zero]
    exact h
  have hparts : (specGroupCounts elements).map (fun p => specPhrase p.1 p.2) ≠ [] := by
    cases elements with
    | nil => exact absurd rfl h
    | cons c rest =>
      unfold specGroupCounts
      rw [firstDedup_cons]
      simp
  refine ⟨?_, ?_, by rfl⟩
  · unfold generateSummary
    rw [hlen]
    simp only [Bool.false_eq_true, if_false]
    rw [jsCountMap_eq_specGroupCounts]
    exact join_shape_eq_spec "Component" _ hparts
  · unfold generateSummary
    rw [hlen]
    simp only [Bool.false_eq_true, if_false]
    rw [jsCountMap_eq_specGroupCounts]
    exact join_shape_eq_spec "Component description" _ hparts

/-- Witness for C7: the scenario input from the claim. -/
theorem generateSummary_spec_witness :
    (["button"] : List String) ≠ [] ∧
    generateSummary ["button", "button", "link"] .image =
      "Component with 2 buttons and 1 link" :=
  ⟨by decide, (generateSummary_spec ["button"] (by decide)).2.2⟩

/-! ## Lemmas about preview extraction -/

theorem lastIndexOfSpace_inv_aux (l : List Char) (idxs : List Nat) :
    ∀ acc : Int,
      acc = -1 ∨ (0 ≤ acc ∧ acc < (l.length : Int) ∧ l[acc.toNat]? = some ' ') →
      idxs.foldl (fun (a : Int) (j : Nat) => if l[j]? == some ' ' then (j : Int) else a) acc = -1 ∨
      (0 ≤ idxs.foldl (fun (a : Int) (j : Nat) => if l[j]? == some ' ' then (j : Int) else a) acc ∧
       idxs.foldl (fun (a : Int) (j : Nat) => if l[j]? == some ' ' then (j : Int) else a) acc
         < (l.length : Int) ∧
       l[(idxs.foldl (fun (a : Int) (j : Nat) => if l[j]? == some ' ' then (j : Int) else a)
           acc).toNat]? = some ' ') := by
  induction idxs with
  | nil => intro acc h; exact h
  | cons j rest ih =>
    intro acc h
    simp only [List.foldl_cons]
    apply ih
    by_cases hj : (l[j]? == some ' ') = true
    · have hjs : l[j]? = some ' ' := by simpa using hj
      have hjl : j < l.length := by
        by_contra hh
        rw [List.getElem?_eq_none (Nat.le_of_not_lt hh)] at hjs
        exact Option.noConfusion hjs
      rw [if_pos hj]
      refine Or.inr ⟨by exact_mod_cast Nat.zero_le j, by exact_mod_cast hjl, by simpa using hjs⟩
    · rw [if_neg hj]
      exact h

theorem lastIndexOfSpace_inv (l : List Char) :
    lastIndexOfSpace l = -1 ∨
    (0 ≤ lastIndexOfSpace l ∧ lastIndexOfSpace l < (l.length : Int) ∧
      l[(lastIndexOfSpace l).toNat]? = some ' ') :=
  lastIndexOfSpace_inv_aux l (List.range l.length) (-1) (Or.inl rfl)

theorem previewContent_of_empty_capture (rest : List Char) (h : captureLazy rest = []) :
    previewContent rest = [] := by
  unfold previewContent
  rw [h]
  rfl

theorem extractPreviewFromRaw_marker (rawMdx : List Char) (rest : List Char)
    (hf : findCaptureStart rawMdx = some rest) :
    extractPreviewFromRaw rawMdx =
      (if (captureLazy rest).length == 0 then []
       else if (previewContent rest).length ≤ 150 then previewContent rest
       else if 0 < lastIndexOfSpace ((previewContent rest).take 150) then
         ((previewContent rest).take 150).take
           (lastIndexOfSpace ((previewContent rest).take 150)).toNat ++ "...".toList
       else (previewContent rest).take 150 ++ "...".toList) := by
  unfold extractPreviewFromRaw
  rw [hf]

/-! ## Claim theorems: preview extraction -/

set_option maxRecDepth 100000 in
/-- C8 counterexample: a first paragraph of 151 letters with no space
produces a preview of 153 characters (150 kept characters plus the
three-character ellipsis), refuting the claimed 150-character bound. -/
theorem extractPreview_length_counterexample :
    (extractPreviewText
      (some ⟨"## What this means\n\n".data ++ List.replicate 151 'a'⟩)).length = 153 ∧
    ¬ (extractPreviewText
      (some ⟨"## What this means\n\n".data ++ List.replicate 151 'a'⟩)).length ≤ 150 := by
  refine ⟨by decide, by decide⟩

/-- C8 (amended): the preview is empty when the read fails or the
section marker is absent; it always fits in 153 characters (at most
150 before the terminating three-dot ellipsis); when the cleaned first
paragraph after the marker fits in 150 characters it is returned
whole; when it is longer, the preview is that paragraph cut at the
last space inside its first 150 characters (the cut position holds a
space — a word boundary) followed by an ellipsis, or, when no such
space exists past position zero, the first 150 characters followed by
an ellipsis. -/
theorem extractPreviewText_spec :
    extractPreviewText none = "" ∧
    (∀ raw : String, findCaptureStart raw.data = none → extractPreviewText (some raw) = "") ∧
    (∀ r : Option String, (extractPreviewText r).length ≤ 153) ∧
    (∀ (raw : String) (rest : List Char), findCaptureStart raw.data = some rest →
      ((previewContent rest).length ≤ 150 →
        (extractPreviewText (some raw)).data = previewContent rest) ∧
      (150 < (previewContent rest).length →
        (0 < lastIndexOfSpace ((previewContent rest).take 150) →
          (extractPreviewText (some raw)).data =
            (previewContent rest).take
              (lastIndexOfSpace ((previewContent rest).take 150)).toNat ++ "...".toList ∧
          (previewContent rest)[(lastIndexOfSpace
            ((previewContent rest).take 150)).toNat]? = some ' ') ∧
        (lastIndexOfSpace ((previewContent rest).take 150) ≤ 0 →
          (extractPreviewText (some raw)).data =
            (previewContent rest).take 150 ++ "...".toList))) := by
  have hsome : ∀ raw : String, (extractPreviewText (some raw)).data =
      extractPreviewFromRaw raw.data := fun _ => rfl
  refine ⟨rfl, ?_, ?_, ?_⟩
  · intro raw h
    have hempty : extractPreviewFromRaw raw.data = [] := by
      unfold extractPreviewFromRaw
      rw [h]
    have hmk : extractPreviewText (some raw) = ⟨extractPreviewFromRaw raw.data⟩ := rfl
    rw [hmk, hempty]
  · intro r
    cases r with
    | none =>
      show ("" : String).length ≤ 153
      decide
    | some raw =>
      show (extractPreviewText (some raw)).length ≤ 153
      have hL : (extractPreviewText (some raw)).length =
          (extractPreviewFromRaw raw.data).length := congrArg List.length (hsome raw)
      rw [hL]
      cases hf : findCaptureStart raw.data with
      | none =>
        have : extractPreviewFromRaw raw.data = [] := by
          unfold extractPreviewFromRaw
          rw [hf]
        rw [this]
        decide
      | some rest =>
        rw [extractPreviewFromRaw_marker raw.data rest hf]
        have h3 : ("...".toList).length = 3 := rfl
        by_cases hcap : ((captureLazy rest).length == 0) = true
        · rw [if_pos hcap]
          decide
        · rw [if_neg hcap]
          by_cases hct : (previewContent rest).length ≤ 150
          · rw [if_pos hct]
            omega
          · rw [if_neg hct]
            have htake : ((previewContent rest).take 150).length = 150 := by
              rw [List.length_take]
              omega
            by_cases hpos : (0:Int) < lastIndexOfSpace ((previewContent rest).take 150)
            · rw [if_pos hpos]
              have hkb : (lastIndexOfSpace ((previewContent rest).take 150)).toNat ≤ 150 := by
                rcases lastIndexOfSpace_inv ((previewContent rest).take 150) with
                  hsp | ⟨h0, hlt, _⟩
                · rw [hsp] at hpos
                  exact absurd hpos (by decide)
                · rw [htake] at hlt
                  omega
              rw [List.length_append, h3, List.length_take, htake]
              omega
            · rw [if_neg hpos]
              rw [List.length_append, h3, htake]
  · intro raw rest hf
    have hres := extractPreviewFromRaw_marker raw.data rest hf
    rw [← hsome raw] at hres
    constructor
    · intro hle
      by_cases hcap : ((captureLazy rest).length == 0) = true
      · rw [if_pos hcap] at hres
        rw [hres,
          previewContent_of_empty_capture rest (List.length_eq_zero.mp (by simpa using hcap))]
      · rw [if_neg hcap, if_pos hle] at hres
        exact hres
    · intro hgt
      have hcap : ¬ ((captureLazy rest).length == 0) = true := by
        intro hh
        have hc :=
          previewContent_of_empty_capture rest (List.length_eq_zero.mp (by simpa using hh))
        rw [hc] at hgt
        simp at hgt
      have hct : ¬ (previewContent rest).length ≤ 150 := by omega
      rw [if_neg hcap, if_neg hct] at hres
      have htake : ((previewContent rest).take 150).length = 150 := by
        rw [List.length_take]
        omega
      constructor
      · intro hpos
        rw [if_pos hpos] at hres
        have hk : (lastIndexOfSpace ((previewContent rest).take 150)).toNat < 150 := by
          rcases lastIndexOfSpace_inv ((previewContent rest).take 150) with hsp | ⟨h0, hlt, _⟩
          · rw [hsp] at hpos
            exact absurd hpos (by decide)
          · rw [htake] at hlt
            omega
        constructor
        · rw [hres, List.take_take, Nat.min_eq_left (Nat.le_of_lt hk)]
        · rcases lastIndexOfSpace_inv ((previewContent rest).take 150) with hsp | ⟨h0, hlt, hat⟩
          · rw [hsp] at hpos
            exact absurd hpos (by decide)
          · rw [List.getElem?_take, if_pos hk] at hat
            exact hat
      · intro hneg
        have : ¬ (0:Int) < lastIndexOfSpace ((previewContent rest).take 150) := by omega
        rw [if_neg this] at hres
        exact hres

/-- Witness for C8's amended theorem on a short concrete document. -/
theorem extractPreviewText_spec_witness :
    findCaptureStart ("## What this means\n\nHello world.\n").data =
      some ("Hello world.\n").data ∧
    (extractPreviewText (some "## What this means\n\nHello world.\n")).data =
      previewContent ("Hello world.\n").data :=
  ⟨by decide,
   (extractPreviewText_spec.2.2.2 "## What this means\n\nHello world.\n"
      ("Hello world.\n").data (by decide)).1 (by decide)⟩

/-! ## Lemmas about the stable comparator sort -/

theorem insertCmp_perm {α : Type} (cmp : α → α → Int) (x : α) (l : List α) :
    List.Perm (insertCmp cmp x l) (x :: l) := by
  induction l with
  | nil => exact List.Perm.refl [x]
  | cons y ys ih =>
    unfold insertCmp
    by_cases h : cmp x y ≤ 0
    · rw [if_pos h]
    · rw [if_neg h]
      exact (List.Perm.cons y ih).trans (List.Perm.swap x y ys)

theorem sortStable_perm {α : Type} (cmp : α → α → Int) (l : List α) :
    List.Perm (sortStable cmp l) l := by
  induction l with
  | nil => exact List.Perm.refl []
  | cons x xs ih =>
    unfold sortStable
    exact (insertCmp_perm cmp x (sortStable cmp xs)).trans (List.Perm.cons x ih)

theorem mem_insertCmp {α : Type} (cmp : α → α → Int) (x y : α) (l : List α) :
    y ∈ insertCmp cmp x l ↔ y = x ∨ y ∈ l := by
  rw [(insertCmp_perm cmp x l).mem_iff, List.mem_cons]

theorem insertCmp_pairwise {α : Type} (cmp : α → α → Int)
    (htot : ∀ a b, cmp a b ≤ 0 ∨ cmp b a ≤ 0)
    (htrans : ∀ a b c, cmp a b ≤ 0 → cmp b c ≤ 0 → cmp a c ≤ 0)
    (x : α) (l : List α) (h : l.Pairwise (fun a b => cmp a b ≤ 0)) :
    (insertCmp cmp x l).Pairwise (fun a b => cmp a b ≤ 0) := by
  induction l with
  | nil => simp [insertCmp]
  | cons y ys ih =>
    rw [List.pairwise_cons] at h
    obtain ⟨hy, hys⟩ := h
    unfold insertCmp
    by_cases hxy : cmp x y ≤ 0
    · rw [if_pos hxy, List.pairwise_cons]
      refine ⟨?_, List.pairwise_cons.mpr ⟨hy, hys⟩⟩
      intro z hz
      rcases List.mem_cons.mp hz with hzy | hz
      · subst hzy
        exact hxy
      · exact htrans x y z hxy (hy z hz)
    · rw [if_neg hxy, List.pairwise_cons]
      refine ⟨?_, ih hys⟩
      intro z hz
      rcases (mem_insertCmp cmp x z ys).mp hz with hzx | hz
      · rw [hzx]
        rcases htot x y with h | h
        · exact absurd h hxy
        · exact h
      · exact hy z hz

theorem sortStable_pairwise {α : Type} (cmp : α → α → Int)
    (htot : ∀ a b, cmp a b ≤ 0 ∨ cmp b a ≤ 0)
    (htrans : ∀ a b c, cmp a b ≤ 0 → cmp b c ≤ 0 → cmp a c ≤ 0)
    (l : List α) : (sortStable cmp l).Pairwise (fun a b => cmp a b ≤ 0) := by
  induction l with
  | nil => simp [sortStable]
  | cons x xs ih => exact insertCmp_pairwise cmp htot htrans x _ ih

theorem filter_insertCmp {α : Type} (cmp : α → α → Int) (p : α → Bool)
    (hp : ∀ a b, p a = true → p b = true → cmp a b ≤ 0) (x : α) (l : List α) :
    (insertCmp cmp x l).filter p = if p x then x :: l.filter p else l.filter p := by
  induction l with
  | nil =>
    rw [show insertCmp cmp x [] = [x] from rfl]
    cases hpx : p x <;> simp [List.filter, hpx]
  | cons y ys ih =>
    unfold insertCmp
    by_cases hxy : cmp x y ≤ 0
    · rw [if_pos hxy, List.filter_cons]
    · rw [if_neg hxy, List.filter_cons, ih]
      by_cases hpx : p x = true
      · have hpy : ¬ p y = true := fun hpy => hxy (hp x y hpx hpy)
        simp [hpx, hpy, List.filter_cons]
      · simp [hpx, List.filter_cons]

theorem filter_sortStable {α : Type} (cmp : α → α → Int) (p : α → Bool)
    (hp : ∀ a b, p a = true → p b = true → cmp a b ≤ 0) (l : List α) :
    (sortStable cmp l).filter p = l.filter p := by
  induction l with
  | nil => rfl
  | cons x xs ih =>
    unfold sortStable
    rw [filter_insertCmp cmp p hp, ih, List.filter_cons]

/-! ## Lemmas about jsIndexOf and the category comparator -/

theorem jsIndexOfAux_spec {α : Type} [DecidableEq α] :
    ∀ (l : List α) (s : α) (i : Nat),
      jsIndexOfAux l s i = -1 ∨
      ((i : Int) ≤ jsIndexOfAux l s i ∧ jsIndexOfAux l s i < (i : Int) + l.length) := by
  intro l
  induction l with
  | nil => intro s i; exact Or.inl rfl
  | cons x rest ih =>
    intro s i
    unfold jsIndexOfAux
    by_cases h : x = s
    · rw [if_pos h]
      right
      constructor
      · exact le_refl _
      · simp only [List.length_cons]
        push_cast
        omega
    · rw [if_neg h]
      rcases ih s (i + 1) with h1 | ⟨h2, h3⟩
      · exact Or.inl h1
      · right
        constructor
        · push_cast at h2 ⊢
          omega
        · simp only [List.length_cons]
          push_cast at h3 ⊢
          omega

theorem jsIndexOf_spec {α : Type} [DecidableEq α] (l : List α) (s : α) :
    jsIndexOf l s = -1 ∨ (0 ≤ jsIndexOf l s ∧ jsIndexOf l s < (l.length : Int)) := by
  unfold jsIndexOf
  simpa using jsIndexOfAux_spec l s 0

theorem compareCat_le_iff (a b : HeuristicMatch) :
    compareCat a b ≤ 0 ↔ catRankLe a b := by
  unfold compareCat catRankLe canonicalRank
  by_cases ha : jsIndexOf categoryOrder a.category = -1 <;>
    by_cases hb : jsIndexOf categoryOrder b.category = -1
  · simp [ha, hb]
  · have e1 : (jsIndexOf categoryOrder a.category != -1) = false := by simp [ha]
    have e2 : (jsIndexOf categoryOrder b.category != -1) = true := by simp [hb]
    rw [e1]
    simp only [Bool.false_and, Bool.false_eq_true, if_false, e2, if_true, if_pos ha, if_neg hb]
    exact iff_of_false (by omega) not_false
  · have e1 : (jsIndexOf categoryOrder a.category != -1) = true := by simp [ha]
    have e2 : (jsIndexOf categoryOrder b.category != -1) = false := by simp [hb]
    rw [e2]
    simp only [Bool.and_false, Bool.false_eq_true, if_false, e1, if_true, if_neg ha, if_pos hb]
    exact iff_of_true (by omega) trivial
  · have e1 : (jsIndexOf categoryOrder a.category != -1) = true := by simp [ha]
    have e2 : (jsIndexOf categoryOrder b.category != -1) = true := by simp [hb]
    simp only [e1, e2, Bool.and_self, if_true, if_neg ha, if_neg hb]
    show jsIndexOf categoryOrder a.category - jsIndexOf categoryOrder b.category ≤ 0 ↔
      (jsIndexOf categoryOrder a.category).toNat ≤ (jsIndexOf categoryOrder b.category).toNat
    rcases jsIndexOf_spec categoryOrder a.category with h1 | ⟨h1, _⟩
    · exact absurd h1 ha
    rcases jsIndexOf_spec categoryOrder b.category with h2 | ⟨h2, _⟩
    · exact absurd h2 hb
    omega

theorem catRankLe_total (a b : HeuristicMatch) : catRankLe a b ∨ catRankLe b a := by
  unfold catRankLe
  cases canonicalRank a.category <;> cases canonicalRank b.category
  · exact Or.inl trivial
  · exact Or.inr trivial
  · exact Or.inl trivial
  · show _ ∨ _
    omega

theorem catRankLe_trans (a b c : HeuristicMatch) :
    catRankLe a b → catRankLe b c → catRankLe a c := by
  unfold catRankLe
  cases canonicalRank a.category <;> cases canonicalRank b.category <;>
    cases canonicalRank c.category <;> intro h1 h2 <;>
    first
    | trivial
    | omega

theorem compareCat_total (a b : HeuristicMatch) :
    compareCat a b ≤ 0 ∨ compareCat b a ≤ 0 := by
  rcases catRankLe_total a b with h | h
  · exact Or.inl ((compareCat_le_iff a b).mpr h)
  · exact Or.inr ((compareCat_le_iff b a).mpr h)

theorem compareCat_trans (a b c : HeuristicMatch)
    (h1 : compareCat a b ≤ 0) (h2 : compareCat b c ≤ 0) : compareCat a c ≤ 0 :=
  (compareCat_le_iff a c).mpr
    (catRankLe_trans a b c ((compareCat_le_iff a b).mp h1) ((compareCat_le_iff b c).mp h2))

theorem compareCat_eq_zero_of_rank_eq (k : Int) (a b : HeuristicMatch)
    (hak : jsIndexOf categoryOrder a.category = k)
    (hbk : jsIndexOf categoryOrder b.category = k) : compareCat a b ≤ 0 := by
  unfold compareCat
  rw [hak, hbk]
  by_cases hk : k = -1
  · simp [hk]
  · have hk2 : (k != -1) = true := by simp [hk]
    simp [hk2]

/-! ## Lemmas about the matcher pipeline -/

theorem resolveHeuristic_slug (repo : HeuristicRepo) (s : String) (h : HeuristicMatch)
    (hres : resolveHeuristic repo s = some h) : h.slug = s := by
  unfold resolveHeuristic at hres
  split at hres <;>
  · simp only [] at hres
    split at hres
    · exact absurd hres (by simp)
    · simp only [Option.some.injEq] at hres
      rw [← hres]

theorem filterMap_resolve_slugs (repo : HeuristicRepo) (slugs : List String) :
    (slugs.filterMap (resolveHeuristic repo)).map (fun h => h.slug) =
      slugs.filter (fun s => (resolveHeuristic repo s).isSome) := by
  induction slugs with
  | nil => rfl
  | cons s rest ih =>
    rw [List.filterMap_cons, List.filter_cons]
    cases hres : resolveHeuristic repo s with
    | none => simp [hres, ih]
    | some h =>
      have hslug := resolveHeuristic_slug repo s h hres
      simp [hres, ih, hslug]

theorem setAdd_nodup (acc : List String) (h : String) (hnd : acc.Nodup) :
    (setAdd acc h).Nodup := by
  unfold setAdd
  by_cases hmem : h ∈ acc
  · rw [if_pos hmem]
    exact hnd
  · rw [if_neg hmem]
    apply List.Nodup.append hnd (List.nodup_singleton h)
    intro a ha hb
    rw [List.mem_singleton] at hb
    exact hmem (hb ▸ ha)

theorem foldl_setAdd_nodup (hs : List String) :
    ∀ acc, acc.Nodup → (hs.foldl setAdd acc).Nodup := by
  induction hs with
  | nil => intro acc h; exact h
  | cons x rest ih => intro acc h; exact ih _ (setAdd_nodup acc x h)

theorem getHeuristicsForElements_nodup (elements : List String) :
    (getHeuristicsForElements elements).Nodup := by
  unfold getHeuristicsForElements
  suffices hgen : ∀ (els : List String) (acc : List String), acc.Nodup →
      (els.foldl (fun acc element => (elementHeuristicMap element).foldl setAdd acc) acc).Nodup by
    exact hgen elements [] List.nodup_nil
  intro els
  induction els with
  | nil => intro acc h; exact h
  | cons e rest ih => intro acc h; exact ih _ (foldl_setAdd_nodup _ acc h)

theorem jsMapInsert_fst (m : List (String × HeuristicMatch)) (k : String) (v : HeuristicMatch) :
    (jsMapInsert m k v).map Prod.fst =
      if m.any (fun p => p.1 == k) then m.map Prod.fst else m.map Prod.fst ++ [k] := by
  unfold jsMapInsert
  by_cases h : m.any (fun p => p.1 == k) = true
  · rw [if_pos h, if_pos h, List.map_map]
    apply List.map_congr_left
    intro p _
    by_cases hpk : (p.1 == k) = true
    · have hk : p.1 = k := by simpa using hpk
      simp [Function.comp, hpk, hk]
    · simp [Function.comp, hpk]
  · rw [if_neg h, if_neg h, List.map_append]
    rfl

theorem jsMapInsert_snd_inv (m : List (String × HeuristicMatch)) (k : String)
    (v : HeuristicMatch) (hv : v.slug = k) (hm : ∀ p ∈ m, p.2.slug = p.1) :
    ∀ p ∈ jsMapInsert m k v, p.2.slug = p.1 := by
  unfold jsMapInsert
  by_cases h : m.any (fun p => p.1 == k) = true
  · rw [if_pos h]
    intro p hp
    obtain ⟨q, hq, hqp⟩ := List.mem_map.mp hp
    by_cases hqk : (q.1 == k) = true
    · rw [if_pos hqk] at hqp
      rw [← hqp]
      exact hv
    · rw [if_neg hqk] at hqp
      rw [← hqp]
      exact hm q hq
  · rw [if_neg h]
    intro p hp
    rcases List.mem_append.mp hp with h1 | h2
    · exact hm p h1
    · rw [List.mem_singleton] at h2
      rw [h2]
      exact hv

theorem jsMapOfMatches_inv (l : List HeuristicMatch) :
    ((jsMapOfMatches l).map Prod.fst).Nodup ∧ ∀ p ∈ jsMapOfMatches l, p.2.slug = p.1 := by
  unfold jsMapOfMatches
  suffices hgen : ∀ (t : List HeuristicMatch) (m : List (String × HeuristicMatch)),
      (m.map Prod.fst).Nodup → (∀ p ∈ m, p.2.slug = p.1) →
      ((t.foldl (fun m h => jsMapInsert m h.slug h) m).map Prod.fst).Nodup ∧
      (∀ p ∈ t.foldl (fun m h => jsMapInsert m h.slug h) m, p.2.slug = p.1) by
    exact hgen l [] (by simp) (by simp)
  intro t
  induction t with
  | nil => intro m h1 h2; exact ⟨h1, h2⟩
  | cons x rest ih =>
    intro m h1 h2
    simp only [List.foldl_cons]
    apply ih
    · rw [jsMapInsert_fst]
      by_cases h : m.any (fun p => p.1 == x.slug) = true
      · rw [if_pos h]
        exact h1
      · rw [if_neg h]
        apply List.Nodup.append h1 (List.nodup_singleton _)
        intro a ha hb
        rw [List.mem_singleton] at hb
        subst hb
        obtain ⟨p, hp, hpa⟩ := List.mem_map.mp ha
        rw [List.any_eq_true] at h
        exact h ⟨p, hp, by simp [hpa]⟩
    · exact jsMapInsert_snd_inv m x.slug x rfl h2

theorem dedupeBySlug_slugs_nodup (l : List HeuristicMatch) :
    ((dedupeBySlug l).map (fun h => h.slug)).Nodup := by
  have h := jsMapOfMatches_inv l
  unfold dedupeBySlug
  rw [List.map_map]
  have heq : (jsMapOfMatches l).map ((fun h => h.slug) ∘ Prod.snd) =
      (jsMapOfMatches l).map Prod.fst :=
    List.map_congr_left (fun p hp => h.2 p hp)
  rw [heq]
  exact h.1

theorem foldl_jsMapInsert_fresh :
    ∀ (t : List HeuristicMatch) (m : List (String × HeuristicMatch)),
      (t.map (fun h => h.slug)).Nodup → (∀ h ∈ t, ∀ p ∈ m, p.1 ≠ h.slug) →
      t.foldl (fun m h => jsMapInsert m h.slug h) m = m ++ t.map (fun h => (h.slug, h)) := by
  intro t
  induction t with
  | nil => intro m _ _; simp
  | cons x rest ih =>
    intro m hnd hfresh
    simp only [List.foldl_cons]
    have hany : m.any (fun p => p.1 == x.slug) = false := by
      rw [List.any_eq_false]
      intro p hp
      simpa using hfresh x (by simp) p hp
    have hins : jsMapInsert m x.slug x = m ++ [(x.slug, x)] := by
      unfold jsMapInsert
      rw [hany]
      simp
    have hnd2 : (rest.map (fun h => h.slug)).Nodup := by
      rw [List.map_cons, List.nodup_cons] at hnd
      exact hnd.2
    have hxnotin : x.slug ∉ rest.map (fun h => h.slug) := by
      rw [List.map_cons, List.nodup_cons] at hnd
      exact hnd.1
    rw [hins, ih (m ++ [(x.slug, x)]) hnd2 ?_]
    · simp
    · intro h hh p hp
      rcases List.mem_append.mp hp with h1 | h2
      · exact hfresh h (List.mem_cons_of_mem x hh) p h1
      · rw [List.mem_singleton] at h2
        subst h2
        intro hcontr
        apply hxnotin
        have hxh : x.slug = h.slug := hcontr
        rw [hxh]
        exact List.mem_map_of_mem (fun h => h.slug) hh

theorem dedupeBySlug_of_nodup (l : List HeuristicMatch)
    (h : (l.map (fun h => h.slug)).Nodup) : dedupeBySlug l = l := by
  unfold dedupeBySlug jsMapOfMatches
  rw [foldl_jsMapInsert_fresh l [] h (by simp)]
  rw [List.nil_append, List.map_map]
  have hid : (Prod.snd ∘ fun h : HeuristicMatch => (h.slug, h)) = id := rfl
  rw [hid, List.map_id]

theorem matchHeuristics_unique_eq_valid (repo : HeuristicRepo) (elements : List String) :
    dedupeBySlug ((getHeuristicsForElements elements).filterMap (resolveHeuristic repo)) =
      (getHeuristicsForElements elements).filterMap (resolveHeuristic repo) := by
  apply dedupeBySlug_of_nodup
  rw [filterMap_resolve_slugs]
  exact (getHeuristicsForElements_nodup elements).filter _

/-! ## Claim theorems: the matcher -/

/-- C1: for every input list of element tags and every repository
state, the matcher output contains no two entries with the same slug. -/
theorem matchHeuristics_dedup (repo : HeuristicRepo) (elements : List String) :
    ((matchHeuristics repo elements).map (fun h => h.slug)).Nodup := by
  simp only [matchHeuristics]
  have hperm := sortStable_perm compareCat
    (dedupeBySlug ((getHeuristicsForElements elements).filterMap (resolveHeuristic repo)))
  rw [List.Perm.nodup_iff (hperm.map (fun h => h.slug))]
  exact dedupeBySlug_slugs_nodup _

/-- C4: for every element list and repository state, the matcher never
fails (it is a total function) and returns exactly the matches for the
identifiers that resolve: a slug appears in the output exactly when
the catalog produced it and its resolution succeeded, and every
returned match is the resolution of its own slug — failing identifiers
are silently dropped. -/
theorem matchHeuristics_graceful (repo : HeuristicRepo) (elements : List String) :
    (∀ s : String, (∃ h ∈ matchHeuristics repo elements, h.slug = s) ↔
      (s ∈ getHeuristicsForElements elements ∧ (resolveHeuristic repo s).isSome = true)) ∧
    (∀ h ∈ matchHeuristics repo elements, resolveHeuristic repo h.slug = some h) := by
  have hperm : List.Perm (matchHeuristics repo elements)
      ((getHeuristicsForElements elements).filterMap (resolveHeuristic repo)) := by
    simp only [matchHeuristics]
    rw [matchHeuristics_unique_eq_valid repo elements]
    exact sortStable_perm compareCat _
  constructor
  · intro s
    constructor
    · rintro ⟨h, hm, rfl⟩
      have hv : h ∈ (getHeuristicsForElements elements).filterMap (resolveHeuristic repo) :=
        hperm.mem_iff.mp hm
      obtain ⟨s0, hs0, hres⟩ := List.mem_filterMap.mp hv
      have := resolveHeuristic_slug repo s0 h hres
      rw [this]
      exact ⟨hs0, by rw [hres]; rfl⟩
    · rintro ⟨hmem, hres⟩
      obtain ⟨h, hh⟩ := Option.isSome_iff_exists.mp hres
      refine ⟨h, hperm.mem_iff.mpr (List.mem_filterMap.mpr ⟨s, hmem, hh⟩),
        resolveHeuristic_slug repo s h hh⟩
  · intro h hm
    have hv : h ∈ (getHeuristicsForElements elements).filterMap (resolveHeuristic repo) :=
      hperm.mem_iff.mp hm
    obtain ⟨s0, hs0, hres⟩ := List.mem_filterMap.mp hv
    rw [resolveHeuristic_slug repo s0 h hres]
    exact hres

/-- Witness for C4: a repository resolving exactly one catalog slug
yields exactly that match and drops the rest. -/
theorem matchHeuristics_graceful_witness :
    (∃ h ∈ matchHeuristics sampleRepo ["button"], h.slug = "/page-structure/cta-buttons") ∧
    ¬ (∃ h ∈ matchHeuristics sampleRepo ["button"], h.slug = "/readability/color-contrast") :=
  ⟨((matchHeuristics_graceful sampleRepo ["button"]).1 "/page-structure/cta-buttons").mpr
      ⟨by decide, by rfl⟩,
   fun hex => by
    have h2 := ((matchHeuristics_graceful sampleRepo ["button"]).1
      "/readability/color-contrast").mp hex
    exact absurd h2.2 (by decide)⟩

/-- C2: the matcher output is sorted by the canonical category order —
for any entry before another, its category's rank is at most the
later one's, with unranked categories after all ranked ones — and,
within each rank class (equal-rank categories, including the unranked
class), slugs appear as a subsequence of the catalog's
first-production order, which is what the stable sort preserves. -/
theorem matchHeuristics_category_order (repo : HeuristicRepo) (elements : List String) :
    (matchHeuristics repo elements).Pairwise catRankLe ∧
    (∀ k : Int, List.Sublist
      (((matchHeuristics repo elements).filter
        (fun h => jsIndexOf categoryOrder h.category == k)).map (fun h => h.slug))
      (getHeuristicsForElements elements)) := by
  constructor
  · simp only [matchHeuristics]
    exact (sortStable_pairwise compareCat compareCat_total compareCat_trans _).imp
      (fun hab => (compareCat_le_iff _ _).mp hab)
  · intro k
    simp only [matchHeuristics]
    rw [matchHeuristics_unique_eq_valid repo elements]
    rw [filter_sortStable compareCat _ (fun a b ha hb =>
      compareCat_eq_zero_of_rank_eq k a b (by simpa using ha) (by simpa using hb))]
    have h1 : List.Sublist
        (((getHeuristicsForElements elements).filterMap (resolveHeuristic repo)).filter
          (fun h => jsIndexOf categoryOrder h.category == k))
        ((getHeuristicsForElements elements).filterMap (resolveHeuristic repo)) :=
      List.filter_sublist _
    have h2 := h1.map (fun h => h.slug)
    rw [filterMap_resolve_slugs] at h2
    exact h2.trans (List.filter_sublist _)

/-! ## Lemmas about the Markdown export -/

theorem stringJoin_data (l : List String) :
    (String.join l).data = (l.map String.data).flatten := by
  have gen : ∀ (t : List String) (acc : String),
      (t.foldl (fun a b => a ++ b) acc).data = acc.data ++ (t.map String.data).flatten := by
    intro t
    induction t with
    | nil => intro acc; simp
    | cons x rest ih =>
      intro acc
      simp only [List.foldl_cons, List.map_cons, List.flatten_cons, ih, String.data_append]
      rw [List.append_assoc]
  simpa [String.join] using gen l ""

theorem checklistLine_data (h : HeuristicMatch) :
    (checklistLine h).data = checklistLineChars h ++ ['\n'] := by
  unfold checklistLine checklistLineChars
  simp only [String.data_append, List.append_assoc]
  rfl

theorem splitLines_append_line (line rest : List Char) (h : ¬ '\n' ∈ line) :
    splitLines (line ++ '\n' :: rest) = line :: splitLines rest := by
  induction line with
  | nil =>
    show splitOnChar '\n' ('\n' :: rest) = [] :: splitOnChar '\n' rest
    conv_lhs => rw [splitOnChar]
    simp
  | cons c cs ih =>
    have hc : c ≠ '\n' := fun hh => h (hh ▸ List.mem_cons_self c cs)
    have hcs : ¬ '\n' ∈ cs := fun hh => h (List.mem_cons_of_mem c hh)
    show splitOnChar '\n' (c :: (cs ++ '\n' :: rest)) = (c :: cs) :: splitOnChar '\n' rest
    conv_lhs => rw [splitOnChar]
    have hbeq : (c == '\n') = false := by simpa using hc
    rw [hbeq]
    simp only [Bool.false_eq_true, if_false]
    rw [show splitOnChar '\n' (cs ++ '\n' :: rest) = splitLines (cs ++ '\n' :: rest) from rfl,
      ih hcs]
    rfl

theorem splitLines_joinNl (lines : List (List Char)) (h : ∀ l ∈ lines, ¬ '\n' ∈ l) :
    splitLines (joinNl lines) = lines ++ [[]] := by
  induction lines with
  | nil => rfl
  | cons x rest ih =>
    unfold joinNl
    simp only [List.map_cons, List.flatten_cons]
    rw [List.append_assoc]
    have hx := h x (List.mem_cons_self x rest)
    rw [show (['\n'] ++ (rest.map (fun l => l ++ ['\n'])).flatten) =
      '\n' :: (rest.map (fun l => l ++ ['\n'])).flatten from rfl]
    rw [splitLines_append_line x _ hx]
    rw [show (rest.map (fun l => l ++ ['\n'])).flatten = joinNl rest from rfl]
    rw [ih (fun l hl => h l (List.mem_cons_of_mem x hl))]
    rfl

theorem joinNl_append (l1 l2 : List (List Char)) :
    joinNl (l1 ++ l2) = joinNl l1 ++ joinNl l2 := by
  unfold joinNl
  rw [List.map_append, List.flatten_append]

theorem joinNl_flatMap (secs : List (String × List HeuristicMatch))
    (f : String × List HeuristicMatch → List (List Char)) :
    joinNl (secs.flatMap f) = (secs.map (fun p => joinNl (f p))).flatten := by
  induction secs with
  | nil => rfl
  | cons p rest ih =>
    rw [List.flatMap_cons, joinNl_append, ih, List.map_cons, List.flatten_cons]

theorem joinNl_cons (x : List Char) (rest : List (List Char)) :
    joinNl (x :: rest) = x ++ '\n' :: joinNl rest := by
  unfold joinNl
  rw [List.map_cons, List.flatten_cons, List.append_assoc]
  rfl

theorem sectionString_data (p : String × List HeuristicMatch) :
    ("## " ++ categoryDisplayName p.1 ++ "\n\n"
      ++ String.join (p.2.map checklistLine) ++ "\n").data = joinNl (sectionLinesChars p) := by
  unfold sectionLinesChars
  have hcl : (p.2.map (String.data ∘ checklistLine)).flatten =
      (p.2.map (fun h => checklistLineChars h ++ ['\n'])).flatten := by
    congr 1
    apply List.map_congr_left
    intro h _
    exact checklistLine_data h
  have e2 : ("\n" : String).data = ['\n'] := rfl
  have e3 : ("\n\n" : String).data = ['\n', '\n'] := rfl
  have hJ : joinNl (p.2.map checklistLineChars ++ [[]]) =
      (p.2.map (fun h => checklistLineChars h ++ ['\n'])).flatten ++ ['\n'] := by
    rw [joinNl_append]
    unfold joinNl
    rw [List.map_map]
    rfl
  rw [joinNl_cons, joinNl_cons, hJ]
  simp only [String.data_append, stringJoin_data, List.map_map, hcl, e2, e3,
    List.append_assoc, List.nil_append, List.cons_append, List.singleton_append]

theorem generateMarkdown_data (timestamp : String) (result : AnalysisResult) :
    (generateMarkdownChecklist timestamp result).data = joinNl (mdLines timestamp result) := by
  unfold generateMarkdownChecklist mdLines
  have hS : joinNl ((categorize result.heuristics).flatMap sectionLinesChars) =
      ((categorize result.heuristics).map (fun p =>
        ("## " ++ categoryDisplayName p.1 ++ "\n\n"
          ++ String.join (p.2.map checklistLine) ++ "\n").data)).flatten := by
    rw [joinNl_flatMap]
    congr 1
    apply List.map_congr_left
    intro p _
    exact (sectionString_data p).symm
  have e1 : ("# Accessibility Heuristics Checklist\n\n" : String).data =
      ("# Accessibility Heuristics Checklist" : String).data ++ ['\n', '\n'] := rfl
  have e2 : ("\n" : String).data = ['\n'] := rfl
  have e3 : ("\n\n" : String).data = ['\n', '\n'] := rfl
  rw [joinNl_cons, joinNl_cons, joinNl_cons, joinNl_cons, joinNl_cons, hS]
  simp only [String.data_append, stringJoin_data, List.map_map, Function.comp_def, e1, e2, e3,
    List.append_assoc, List.nil_append, List.cons_append, List.singleton_append]

theorem categorize_concat (l : List HeuristicMatch) (x : HeuristicMatch) :
    categorize (l ++ [x]) = jsGroupInsert (categorize l) x.category x := by
  unfold categorize
  rw [List.foldl_append]
  rfl

theorem categorize_eq (l : List HeuristicMatch) :
    categorize l = (firstDedup (l.map (fun h => h.category))).map
      (fun c => (c, l.filter (fun h => h.category == c))) := by
  induction l using List.reverseRecOn with
  | nil => simp [categorize, firstDedup_nil]
  | append_singleton l x ih =>
    rw [categorize_concat, ih]
    unfold jsGroupInsert
    rw [List.map_append,
      show List.map (fun h : HeuristicMatch => h.category) [x] = [x.category] from rfl,
      firstDedup_concat]
    by_cases hx : x.category ∈ l.map (fun h => h.category)
    · have hany : ((firstDedup (l.map (fun h => h.category))).map
          (fun c => (c, l.filter (fun h => h.category == c)))).any
          (fun p => p.1 == x.category) = true := by
        rw [List.any_eq_true]
        exact ⟨(x.category, l.filter (fun h => h.category == x.category)),
          List.mem_map_of_mem _ ((mem_firstDedup _ _).mpr hx), by simp⟩
      rw [if_pos hx, if_pos hany, List.map_map]
      apply List.map_congr_left
      intro c _
      by_cases hcx : c = x.category
      · have hb1 : (c == x.category) = true := by simp [hcx]
        have hb2 : (x.category == c) = true := by simp [hcx]
        simp [Function.comp, hb1, hb2, List.filter_append]
      · have hb1 : (c == x.category) = false := by simpa using hcx
        have hb2 : (x.category == c) = false := by
          simpa using fun hh => hcx hh.symm
        simp [Function.comp, hb1, hb2, List.filter_append]
    · have hany : ((firstDedup (l.map (fun h => h.category))).map
          (fun c => (c, l.filter (fun h => h.category == c)))).any
          (fun p => p.1 == x.category) = false := by
        simp only [List.any_eq_false]
        intro p hp
        obtain ⟨c, hc, hcp⟩ := List.mem_map.mp hp
        have hcl : c ∈ l.map (fun h => h.category) := (mem_firstDedup c _).mp hc
        have : c ≠ x.category := fun hh => hx (hh ▸ hcl)
        rw [← hcp]
        simpa using this
      rw [if_neg hx, hany, List.map_append]
      simp only [Bool.false_eq_true, if_false, List.map_cons, List.map_nil]
      congr 1
      · apply List.map_congr_left
        intro c hc
        have hcl : c ∈ l.map (fun h => h.category) := (mem_firstDedup c _).mp hc
        have hne : c ≠ x.category := fun hh => hx (hh ▸ hcl)
        have hb2 : (x.category == c) = false := by
          simpa using fun hh => hne hh.symm
        simp [List.filter_append, hb2]
      · have hnil : l.filter (fun h => h.category == x.category) = [] := by
          rw [List.filter_eq_nil_iff]
          intro h hh
          intro hbeq
          exact hx (by
            have : h.category = x.category := by simpa using hbeq
            exact this ▸ List.mem_map_of_mem (fun h => h.category) hh)
        simp [List.filter_append, hnil]

theorem filter_length_partition {α : Type} (p : α → Bool) (l : List α) :
    (l.filter p).length + (l.filter (fun x => !(p x))).length = l.length := by
  induction l with
  | nil => rfl
  | cons a rest ih =>
    by_cases ha : p a = true
    · simp [List.filter_cons, ha, ← ih]
      omega
    · have ha2 : p a = false := by simpa using ha
      simp [List.filter_cons, ha2, ← ih]
      omega

theorem sum_filter_lengths {α β : Type} [DecidableEq β] (f : α → β) :
    ∀ (n : Nat) (l : List α), l.length ≤ n →
      ((firstDedup (l.map f)).map (fun c => (l.filter (fun x => f x == c)).length)).sum
        = l.length := by
  intro n
  induction n with
  | zero =>
    intro l hl
    have : l = [] := List.length_eq_zero.mp (Nat.le_zero.mp hl)
    subst this
    simp [firstDedup_nil]
  | succ n ih =>
    intro l hl
    cases l with
    | nil => simp [firstDedup_nil]
    | cons a rest =>
      rw [List.map_cons, firstDedup_cons, List.map_cons, List.sum_cons]
      have hfilter_fa : ((a :: rest).filter (fun x => f x == f a)).length =
          1 + (rest.filter (fun x => f x == f a)).length := by
        rw [List.filter_cons]
        simp [Nat.add_comm]
      have hmapfilter : (List.filter (fun y => y ≠ f a) (List.map f rest)) =
          (rest.filter (fun x => !(f x == f a))).map f := by
        rw [List.filter_map]
        congr 1
        apply List.filter_congr
        intro x _
        by_cases h : f x = f a <;> simp [Function.comp, h]
      rw [hfilter_fa, hmapfilter]
      have hlen : (rest.filter (fun x => !(f x == f a))).length ≤ n := by
        have h1 := List.length_filter_le (fun x => !(f x == f a)) rest
        simp only [List.length_cons] at hl
        omega
      have hcongr : ((firstDedup ((rest.filter (fun x => !(f x == f a))).map f)).map
            (fun c => ((a :: rest).filter (fun x => f x == c)).length)).sum =
          ((firstDedup ((rest.filter (fun x => !(f x == f a))).map f)).map
            (fun c => ((rest.filter (fun x => !(f x == f a))).filter
              (fun x => f x == c)).length)).sum := by
        congr 1
        apply List.map_congr_left
        intro c hc
        obtain ⟨x0, hx0, hx0c⟩ := List.mem_map.mp ((mem_firstDedup c _).mp hc)
        have hx0ne : (f x0 == f a) = false := by
          have := (List.mem_filter.mp hx0).2
          simpa using this
        have hcne : c ≠ f a := by
          rw [← hx0c]
          intro hh
          rw [hh] at hx0ne
          simp at hx0ne
        have hfa : (f a == c) = false := by
          simpa using fun hh => hcne hh.symm
        rw [List.filter_cons]
        simp only [hfa, Bool.false_eq_true, if_false]
        congr 1
        rw [List.filter_filter]
        apply List.filter_congr
        intro x _
        by_cases hxc : (f x == c) = true
        · have hxc2 : f x = c := by simpa using hxc
          have : (f x == f a) = false := by
            rw [hxc2]
            simpa using hcne
          simp [hxc, this]
        · have hxc2 : (f x == c) = false := by simpa using hxc
          simp [hxc2]
      rw [hcongr, ih _ hlen]
      have hpart := filter_length_partition (fun x => f x == f a) rest
      simp only [List.length_cons]
      omega

theorem checklistLineChars_starts (h : HeuristicMatch) :
    List.isPrefixOf ("- [ ] ".toList) (checklistLineChars h) = true := by
  simp [List.isPrefixOf, checklistLineChars, String.data_append]

theorem checklistLineChars_not_heading (h : HeuristicMatch) :
    List.isPrefixOf ("## ".toList) (checklistLineChars h) = false := by
  simp [List.isPrefixOf, checklistLineChars, String.data_append]

theorem heading_starts (c : String) :
    List.isPrefixOf ("## ".toList) (("## " ++ categoryDisplayName c).data) = true := by
  simp [List.isPrefixOf, String.data_append]

theorem heading_not_checklist (c : String) :
    List.isPrefixOf ("- [ ] ".toList) (("## " ++ categoryDisplayName c).data) = false := by
  simp [List.isPrefixOf, String.data_append]

theorem countP_section_checklist (p : String × List HeuristicMatch) :
    (sectionLinesChars p).countP (fun l => List.isPrefixOf ("- [ ] ".toList) l) =
      p.2.length := by
  unfold sectionLinesChars
  rw [List.countP_cons, List.countP_cons, List.countP_append]
  have hitems : (p.2.map checklistLineChars).countP
      (fun l => List.isPrefixOf ("- [ ] ".toList) l) = (p.2.map checklistLineChars).length := by
    rw [List.countP_eq_length]
    intro l hl
    obtain ⟨h, _, hh⟩ := List.mem_map.mp hl
    rw [← hh]
    exact checklistLineChars_starts h
  rw [hitems, List.length_map, heading_not_checklist]
  simp

theorem countP_section_heading (p : String × List HeuristicMatch) :
    (sectionLinesChars p).countP (fun l => List.isPrefixOf ("## ".toList) l) = 1 := by
  unfold sectionLinesChars
  rw [List.countP_cons, List.countP_cons, List.countP_append]
  have hitems : (p.2.map checklistLineChars).countP
      (fun l => List.isPrefixOf ("## ".toList) l) = 0 := by
    rw [List.countP_eq_zero]
    intro l hl
    obtain ⟨h, _, hh⟩ := List.mem_map.mp hl
    rw [← hh]
    rw [checklistLineChars_not_heading h]
    exact Bool.false_ne_true
  rw [hitems, heading_starts]
  simp

theorem filter_section_checklist (p : String × List HeuristicMatch) :
    (sectionLinesChars p).filter (fun l => List.isPrefixOf ("- [ ] ".toList) l) =
      p.2.map checklistLineChars := by
  unfold sectionLinesChars
  rw [List.filter_cons, List.filter_cons, List.filter_append]
  have hitems : (p.2.map checklistLineChars).filter
      (fun l => List.isPrefixOf ("- [ ] ".toList) l) = p.2.map checklistLineChars := by
    rw [List.filter_eq_self]
    intro l hl
    obtain ⟨h, _, hh⟩ := List.mem_map.mp hl
    rw [← hh]
    exact checklistLineChars_starts h
  rw [hitems, heading_not_checklist]
  simp

theorem filter_section_heading (p : String × List HeuristicMatch) :
    (sectionLinesChars p).filter (fun l => List.isPrefixOf ("## ".toList) l) =
      [("## " ++ categoryDisplayName p.1).data] := by
  unfold sectionLinesChars
  rw [List.filter_cons, List.filter_cons, List.filter_append]
  have hitems : (p.2.map checklistLineChars).filter
      (fun l => List.isPrefixOf ("## ".toList) l) = [] := by
    rw [List.filter_eq_nil_iff]
    intro l hl
    obtain ⟨h, _, hh⟩ := List.mem_map.mp hl
    rw [← hh]
    rw [checklistLineChars_not_heading h]
    exact Bool.false_ne_true
  rw [hitems, heading_starts]
  simp

theorem countP_flatMap_sections (q : List Char → Bool)
    (secs : List (String × List HeuristicMatch)) :
    ((secs.flatMap sectionLinesChars).countP q) =
      ((secs.map (fun p => (sectionLinesChars p).countP q)).sum) := by
  induction secs with
  | nil => rfl
  | cons p rest ih =>
    rw [List.flatMap_cons, List.countP_append, ih, List.map_cons, List.sum_cons]

theorem filter_flatMap_sections (q : List Char → Bool)
    (secs : List (String × List HeuristicMatch)) :
    ((secs.flatMap sectionLinesChars).filter q) =
      secs.flatMap (fun p => (sectionLinesChars p).filter q) := by
  induction secs with
  | nil => rfl
  | cons p rest ih =>
    rw [List.flatMap_cons, List.filter_append, ih, List.flatMap_cons]

theorem categoryDisplayName_no_newline (c : String) (hc : ¬ '\n' ∈ c.data) :
    ¬ '\n' ∈ (categoryDisplayName c).data := by
  unfold categoryDisplayName
  cases hfind : categoryNamesLookup.find? (fun p => p.1 == c) with
  | none => exact hc
  | some pr =>
    have hmem : pr ∈ categoryNamesLookup := List.mem_of_find?_eq_some hfind
    have hall : ∀ pr ∈ categoryNamesLookup, ¬ '\n' ∈ pr.2.data := by decide
    exact hall pr hmem

theorem checklistLineChars_no_newline (h : HeuristicMatch)
    (htitle : ¬ '\n' ∈ h.title.data) (hslug : ¬ '\n' ∈ h.slug.data) :
    ¬ '\n' ∈ checklistLineChars h := by
  unfold checklistLineChars
  simp only [String.data_append, List.mem_append]
  intro hcontr
  rcases hcontr with ((((((h1 | h2) | h3) | h4) | h5) | h6) | h7)
  · exact absurd h1 (by decide)
  · exact htitle h2
  · exact absurd h3 (by decide)
  · exact absurd h4 (by decide)
  · exact absurd h5 (by decide)
  · exact hslug h6
  · exact absurd h7 (by decide)

theorem mdLines_no_newline (timestamp : String) (result : AnalysisResult)
    (hts : ¬ '\n' ∈ timestamp.data)
    (hsum : ¬ '\n' ∈ result.detected.summary.data)
    (htitle : ∀ h ∈ result.heuristics, ¬ '\n' ∈ h.title.data)
    (hslug : ∀ h ∈ result.heuristics, ¬ '\n' ∈ h.slug.data)
    (hcat : ∀ h ∈ result.heuristics, ¬ '\n' ∈ h.category.data) :
    ∀ l ∈ mdLines timestamp result, ¬ '\n' ∈ l := by
  intro l hl
  unfold mdLines at hl
  rcases List.mem_cons.mp hl with rfl | hl
  · decide
  rcases List.mem_cons.mp hl with rfl | hl
  · simp
  rcases List.mem_cons.mp hl with rfl | hl
  · rw [String.data_append]
    intro hcontr
    rcases List.mem_append.mp hcontr with h1 | h2
    · exact absurd h1 (by decide)
    · exact hts h2
  rcases List.mem_cons.mp hl with rfl | hl
  · rw [String.data_append]
    intro hcontr
    rcases List.mem_append.mp hcontr with h1 | h2
    · exact absurd h1 (by decide)
    · exact hsum h2
  rcases List.mem_cons.mp hl with rfl | hl
  · simp
  obtain ⟨p, hp, hlp⟩ := List.mem_flatMap.mp hl
  rw [categorize_eq] at hp
  obtain ⟨c, hcmem, hcp⟩ := List.mem_map.mp hp
  obtain ⟨h0, h0mem, h0c⟩ := List.mem_map.mp ((mem_firstDedup c _).mp hcmem)
  have hcnl : ¬ '\n' ∈ c.data := h0c ▸ hcat h0 h0mem
  rw [← hcp] at hlp
  unfold sectionLinesChars at hlp
  rcases List.mem_cons.mp hlp with rfl | hlp
  · rw [String.data_append]
    intro hcontr
    rcases List.mem_append.mp hcontr with h1 | h2
    · exact absurd h1 (by decide)
    · exact categoryDisplayName_no_newline c hcnl h2
  rcases List.mem_cons.mp hlp with rfl | hlp
  · simp
  rcases List.mem_append.mp hlp with hlp | hlp
  · obtain ⟨h1, h1mem, h1l⟩ := List.mem_map.mp hlp
    have h1h : h1 ∈ result.heuristics := (List.mem_filter.mp h1mem).1
    rw [← h1l]
    exact checklistLineChars_no_newline h1 (htitle h1 h1h) (hslug h1 h1h)
  · rw [List.mem_singleton] at hlp
    subst hlp
    simp

theorem sum_map_one {α : Type} (L : List α) :
    (L.map (fun _ => 1)).sum = L.length := by
  induction L with
  | nil => rfl
  | cons p rest ih =>
    simp [ih]
    omega

theorem flatMap_singleton_fn {α β : Type} (g : α → β) (L : List α) :
    L.flatMap (fun p => [g p]) = L.map g := by
  induction L with
  | nil => rfl
  | cons p rest ih => simp [List.flatMap_cons, ih]

theorem flatMap_congr_fn {α β : Type} (f g : α → List β) (L : List α)
    (h : ∀ a ∈ L, f a = g a) : L.flatMap f = L.flatMap g := by
  induction L with
  | nil => rfl
  | cons a rest ih =>
    rw [List.flatMap_cons, List.flatMap_cons, h a (List.mem_cons_self a rest),
      ih (fun x hx => h x (List.mem_cons_of_mem _ hx))]

theorem flatMap_map_fn {α β γ : Type} (g : α → β) (f : β → List γ) (L : List α) :
    (L.map g).flatMap f = L.flatMap (fun a => f (g a)) := by
  induction L with
  | nil => rfl
  | cons a rest ih => rw [List.map_cons, List.flatMap_cons, List.flatMap_cons, ih]

theorem mdLines_header_split (timestamp : String) (result : AnalysisResult)
    (q : List Char → Bool)
    (h1 : q ("# Accessibility Heuristics Checklist").data = false)
    (h2 : q [] = false)
    (h3 : q (("Generated: " ++ timestamp).data) = false)
    (h4 : q (("Component: " ++ result.detected.summary).data) = false) :
    (mdLines timestamp result).countP q =
      ((categorize result.heuristics).flatMap sectionLinesChars).countP q ∧
    (mdLines timestamp result).filter q =
      ((categorize result.heuristics).flatMap sectionLinesChars).filter q := by
  unfold mdLines
  simp only [String.data_append] at h3 h4
  simp at h1 h3 h4
  constructor
  · rw [List.countP_cons, List.countP_cons, List.countP_cons, List.countP_cons,
      List.countP_cons]
    simp [h1, h2, h3, h4]
  · rw [List.filter_cons, List.filter_cons, List.filter_cons, List.filter_cons,
      List.filter_cons]
    simp [h1, h2, h3, h4]

/-- C5 (amended): for every `AnalysisResult` whose timestamp, summary,
titles, slugs and categories are single-line strings, the Markdown
checklist has exactly one task-list line per heuristic entry and
exactly one `##` heading per distinct category; the headings appear in
the order categories first appear in `result.heuristics`; the
task-list lines are grouped by category in that same order, each group
keeping the input order of its heuristics; and an empty heuristics
list yields exactly the title, date and summary lines with no category
section. -/
theorem generateMarkdownChecklist_shape (timestamp : String) (result : AnalysisResult)
    (hts : ¬ '\n' ∈ timestamp.data)
    (hsum : ¬ '\n' ∈ result.detected.summary.data)
    (htitle : ∀ h ∈ result.heuristics, ¬ '\n' ∈ h.title.data)
    (hslug : ∀ h ∈ result.heuristics, ¬ '\n' ∈ h.slug.data)
    (hcat : ∀ h ∈ result.heuristics, ¬ '\n' ∈ h.category.data) :
    (splitLines (generateMarkdownChecklist timestamp result).data).countP
        (fun l => List.isPrefixOf ("- [ ] ".toList) l) = result.heuristics.length ∧
    (splitLines (generateMarkdownChecklist timestamp result).data).countP
        (fun l => List.isPrefixOf ("## ".toList) l) =
      (firstDedup (result.heuristics.map (fun h => h.category))).length ∧
    (splitLines (generateMarkdownChecklist timestamp result).data).filter
        (fun l => List.isPrefixOf ("## ".toList) l) =
      (firstDedup (result.heuristics.map (fun h => h.category))).map
        (fun c => ("## " ++ categoryDisplayName c).data) ∧
    (splitLines (generateMarkdownChecklist timestamp result).data).filter
        (fun l => List.isPrefixOf ("- [ ] ".toList) l) =
      (firstDedup (result.heuristics.map (fun h => h.category))).flatMap
        (fun c => (result.heuristics.filter (fun h => h.category == c)).map
          checklistLineChars) ∧
    (result.heuristics = [] → generateMarkdownChecklist timestamp result =
      "# Accessibility Heuristics Checklist\n\nGenerated: " ++ timestamp
        ++ "\nComponent: " ++ result.detected.summary ++ "\n\n") := by
  have hnl := mdLines_no_newline timestamp result hts hsum htitle hslug hcat
  have hsplit : splitLines (generateMarkdownChecklist timestamp result).data =
      mdLines timestamp result ++ [[]] := by
    rw [generateMarkdown_data]
    exact splitLines_joinNl _ hnl
  have hchk : (fun l => List.isPrefixOf ("- [ ] ".toList) l) ([] : List Char) = false := by
    simp [List.isPrefixOf]
  have hhd : (fun l => List.isPrefixOf ("## ".toList) l) ([] : List Char) = false := by
    simp [List.isPrefixOf]
  have hsplit1 := mdLines_header_split timestamp result
    (fun l => List.isPrefixOf ("- [ ] ".toList) l)
    (by decide) hchk
    (by simp [List.isPrefixOf, String.data_append])
    (by simp [List.isPrefixOf, String.data_append])
  have hsplit2 := mdLines_header_split timestamp result
    (fun l => List.isPrefixOf ("## ".toList) l)
    (by decide) hhd
    (by simp [List.isPrefixOf, String.data_append])
    (by simp [List.isPrefixOf, String.data_append])
  refine ⟨?_, ?_, ?_, ?_, ?_⟩
  · rw [hsplit, List.countP_append, hsplit1.1, countP_flatMap_sections, categorize_eq,
      List.map_map]
    have hmap : ((firstDedup (result.heuristics.map (fun h => h.category))).map
          ((fun p => (sectionLinesChars p).countP
              (fun l => List.isPrefixOf ("- [ ] ".toList) l))
            ∘ (fun c => (c, result.heuristics.filter (fun h => h.category == c))))) =
        (firstDedup (result.heuristics.map (fun h => h.category))).map
          (fun c => (result.heuristics.filter (fun h => h.category == c)).length) := by
      apply List.map_congr_left
      intro c _
      exact countP_section_checklist _
    rw [hmap, sum_filter_lengths (fun h => h.category) result.heuristics.length
      result.heuristics le_rfl]
    simp [hchk]
  · rw [hsplit, List.countP_append, hsplit2.1, countP_flatMap_sections, categorize_eq,
      List.map_map]
    have hmap : ((firstDedup (result.heuristics.map (fun h => h.category))).map
          ((fun p => (sectionLinesChars p).countP
              (fun l => List.isPrefixOf ("## ".toList) l))
            ∘ (fun c => (c, result.heuristics.filter (fun h => h.category == c))))) =
        (firstDedup (result.heuristics.map (fun h => h.category))).map (fun _ => 1) := by
      apply List.map_congr_left
      intro c _
      exact countP_section_heading _
    rw [hmap, sum_map_one]
    simp [hhd]
  · rw [hsplit, List.filter_append, hsplit2.2, filter_flatMap_sections, categorize_eq]
    rw [flatMap_congr_fn _ _ _ (fun p _ => filter_section_heading p), flatMap_singleton_fn,
      List.map_map]
    have hcomp : ((fun p : String × List HeuristicMatch =>
          ("## " ++ categoryDisplayName p.1).data)
        ∘ (fun c => (c, result.heuristics.filter (fun h => h.category == c)))) =
        fun c => ("## " ++ categoryDisplayName c).data := rfl
    rw [hcomp]
    simp [hhd]
  · rw [hsplit, List.filter_append, hsplit1.2, filter_flatMap_sections, categorize_eq]
    rw [flatMap_congr_fn _ _ _ (fun p _ => filter_section_checklist p), flatMap_map_fn]
    have hcomp : (fun c => ((fun p : String × List HeuristicMatch =>
          p.2.map checklistLineChars)
        ((c, result.heuristics.filter (fun h => h.category == c))))) =
        fun c => (result.heuristics.filter (fun h => h.category == c)).map
          checklistLineChars := rfl
    rw [hcomp]
    simp [hchk]
  · intro h0
    have hcat0 : categorize result.heuristics = [] := by
      rw [h0]
      rfl
    unfold generateMarkdownChecklist
    rw [hcat0]
    apply String.ext
    simp only [List.map_nil, String.data_append, List.append_assoc]
    have hjoin : (String.join ([] : List String)).data = [] := rfl
    rw [hjoin, List.append_nil]
    simp [List.append_assoc]

set_option maxRecDepth 100000 in
/-- C5 counterexample: a title containing a newline followed by a
task-list marker makes the generated Markdown contain two `- [ ]`
lines for a single heuristic entry, refuting the claim for arbitrary
`AnalysisResult` values. -/
theorem generateMarkdown_multiline_counterexample :
    ((splitLines (generateMarkdownChecklist "2026-10-11"
        ⟨⟨"s", [], none⟩, [⟨"/x/y", "x", "A\n- [ ] B", [], [], ""⟩]⟩).data).countP
      (fun l => List.isPrefixOf ("- [ ] ".toList) l)) = 2 ∧
    ([(⟨"/x/y", "x", "A\n- [ ] B", [], [], ""⟩ : HeuristicMatch)]).length = 1 := by
  exact ⟨by decide, rfl⟩

set_option maxRecDepth 100000 in
/-- Witness for C5's amended theorem on a concrete single-heuristic
result with single-line fields. -/
theorem generateMarkdownChecklist_shape_witness :
    ¬ '\n' ∈ ("2026-10-11" : String).data ∧
    (splitLines (generateMarkdownChecklist "2026-10-11"
        ⟨⟨"Component with 1 button", ["button"], none⟩,
         [⟨"/page-structure/cta-buttons", "page-structure", "CTA buttons", [], [], ""⟩]⟩).data).countP
      (fun l => List.isPrefixOf ("- [ ] ".toList) l) = 1 :=
  ⟨by decide,
   (generateMarkdownChecklist_shape "2026-10-11"
      ⟨⟨"Component with 1 button", ["button"], none⟩,
       [⟨"/page-structure/cta-buttons", "page-structure", "CTA buttons", [], [], ""⟩]⟩
      (by decide) (by decide) (by decide) (by decide) (by decide)).1⟩

/-! ## Lemmas about the PDF layout simulation -/

theorem addTextSim_y (wrap : WrapFn) (text : String) (fontSize : ℚ) (st : PdfCursor)
    (hfs : 0 ≤ fontSize) (hy : pdfMargin ≤ st.y) :
    pdfMargin ≤ (addTextSim wrap text fontSize st).y := by
  simp only [addTextSim]
  have hnn : 0 ≤ (wrap text pdfContentWidth : ℚ) * (fontSize * (1 / 2)) := by positivity
  split_ifs with hb <;> first | linarith | (dsimp only; linarith)

theorem bumpY_y (d : ℚ) (st : PdfCursor) (hd : 0 ≤ d) (hy : pdfMargin ≤ st.y) :
    pdfMargin ≤ (bumpY d st).y := by
  simp only [bumpY]
  linarith

theorem confStep_y (wrap : WrapFn) (conf : Option ℚ) (st : PdfCursor)
    (hy : pdfMargin ≤ st.y) :
    pdfMargin ≤ (match conf with
      | some c => addTextSim wrap ("Confidence: " ++ toString (round (c * 100)) ++ "%") 10 st
      | none => st).y := by
  cases conf with
  | none => exact hy
  | some c => exact addTextSim_y wrap _ 10 st (by norm_num) hy

theorem elemsStep_y (wrap : WrapFn) (detected : DetectedComponent) (st : PdfCursor)
    (hy : pdfMargin ≤ st.y) :
    pdfMargin ≤ (if detected.elements.length > 0 then
        addTextSim wrap
          (String.intercalate ", " (detected.elements.map (jsReplaceChar '-' ' '))) 10
          (addTextSim wrap "Detected Elements:" 11 st)
      else st).y := by
  by_cases hel : detected.elements.length > 0
  · rw [if_pos hel]
    exact addTextSim_y _ _ 10 _ (by norm_num) (addTextSim_y _ _ 11 _ (by norm_num) hy)
  · rw [if_neg hel]
    exact hy

theorem pdfHeaderSim_y (wrap : WrapFn) (timestamp : String) (detected : DetectedComponent) :
    pdfMargin ≤ (pdfHeaderSim wrap timestamp detected).y := by
  simp only [pdfHeaderSim]
  apply bumpY_y _ _ (by norm_num)
  apply bumpY_y _ _ (by norm_num)
  apply elemsStep_y
  apply confStep_y
  exact addTextSim_y _ _ 11 _ (by norm_num)
    (addTextSim_y _ _ 14 _ (by norm_num)
      (bumpY_y _ _ (by norm_num)
        (addTextSim_y _ _ 10 _ (by norm_num)
          (bumpY_y _ _ (by norm_num)
            (addTextSim_y _ _ 20 _ (by norm_num) (le_refl _))))))

theorem addCheckboxItemSim_spec (wrap : WrapFn) (text : String) (st : PdfCursor)
    (hy : pdfMargin ≤ st.y) :
    ((addCheckboxItemSim wrap text st).1.checkboxPage =
        (addCheckboxItemSim wrap text st).1.textPage ∧
      pdfMargin ≤ (addCheckboxItemSim wrap text st).1.textBaseline ∧
      (addCheckboxItemSim wrap text st).1.textBaseline ≤ pageHeightA4 - pdfMargin) ∧
    pdfMargin ≤ (addCheckboxItemSim wrap text st).2.y := by
  have hmargin : pdfMargin ≤ pageHeightA4 - pdfMargin := by
    rw [show pdfMargin = (20 : ℚ) from rfl, show pageHeightA4 = (297 : ℚ) from rfl]
    norm_num
  simp only [addCheckboxItemSim]
  have hnn : 0 ≤ (wrap text (pdfContentWidth - 4 - 2 - 2) : ℚ) * (11 * (1 / 2)) := by
    positivity
  split_ifs with hb
  · refine ⟨⟨by trivial, by first | trivial | linarith | exact hmargin,
      by first | trivial | linarith | exact hmargin⟩,
      by first | linarith | (dsimp only; linarith)⟩
  · push_neg at hb
    refine ⟨⟨by trivial, by first | trivial | linarith,
      by first | trivial | linarith⟩,
      by first | linarith | (dsimp only; linarith)⟩

theorem itemsFold_spec (wrap : WrapFn) (hs : List HeuristicMatch) :
    ∀ acc : List ItemPlacement × PdfCursor,
      pdfMargin ≤ acc.2.y →
      (∀ p ∈ acc.1, p.checkboxPage = p.textPage ∧ pdfMargin ≤ p.textBaseline ∧
        p.textBaseline ≤ pageHeightA4 - pdfMargin) →
      pdfMargin ≤ (hs.foldl (fun (a : List ItemPlacement × PdfCursor) h =>
          let pr := addCheckboxItemSim wrap h.title a.2
          (a.1 ++ [pr.1], pr.2)) acc).2.y ∧
      ∀ p ∈ (hs.foldl (fun (a : List ItemPlacement × PdfCursor) h =>
          let pr := addCheckboxItemSim wrap h.title a.2
          (a.1 ++ [pr.1], pr.2)) acc).1,
        p.checkboxPage = p.textPage ∧ pdfMargin ≤ p.textBaseline ∧
        p.textBaseline ≤ pageHeightA4 - pdfMargin := by
  induction hs with
  | nil => intro acc h1 h2; exact ⟨h1, h2⟩
  | cons x rest ih =>
    intro acc h1 h2
    simp only [List.foldl_cons]
    have hspec := addCheckboxItemSim_spec wrap x.title acc.2 h1
    apply ih
    · exact hspec.2
    · intro p hp
      rcases List.mem_append.mp hp with hold | hnew
      · exact h2 p hold
      · rw [List.mem_singleton] at hnew
        rw [hnew]
        exact hspec.1

theorem addCategorySim_spec (wrap : WrapFn) (p : String × List HeuristicMatch)
    (acc : List ItemPlacement × PdfCursor)
    (h1 : pdfMargin ≤ acc.2.y)
    (h2 : ∀ q ∈ acc.1, q.checkboxPage = q.textPage ∧ pdfMargin ≤ q.textBaseline ∧
      q.textBaseline ≤ pageHeightA4 - pdfMargin) :
    pdfMargin ≤ (addCategorySim wrap p acc).2.y ∧
    ∀ q ∈ (addCategorySim wrap p acc).1,
      q.checkboxPage = q.textPage ∧ pdfMargin ≤ q.textBaseline ∧
      q.textBaseline ≤ pageHeightA4 - pdfMargin := by
  unfold addCategorySim
  have hst : pdfMargin ≤ (bumpY 2 (addTextSim wrap (categoryDisplayName p.1) 14 acc.2)).y :=
    bumpY_y _ _ (by norm_num) (addTextSim_y _ _ 14 _ (by norm_num) h1)
  have hfold := itemsFold_spec wrap p.2 (acc.1,
    bumpY 2 (addTextSim wrap (categoryDisplayName p.1) 14 acc.2)) hst h2
  exact ⟨bumpY_y _ _ (by norm_num) hfold.1, hfold.2⟩

theorem categoriesFold_spec (wrap : WrapFn) (secs : List (String × List HeuristicMatch)) :
    ∀ acc : List ItemPlacement × PdfCursor,
      pdfMargin ≤ acc.2.y →
      (∀ q ∈ acc.1, q.checkboxPage = q.textPage ∧ pdfMargin ≤ q.textBaseline ∧
        q.textBaseline ≤ pageHeightA4 - pdfMargin) →
      ∀ q ∈ (secs.foldl (fun acc p => addCategorySim wrap p acc) acc).1,
        q.checkboxPage = q.textPage ∧ pdfMargin ≤ q.textBaseline ∧
        q.textBaseline ≤ pageHeightA4 - pdfMargin := by
  induction secs with
  | nil => intro acc _ h2; exact h2
  | cons p rest ih =>
    intro acc h1 h2
    simp only [List.foldl_cons]
    have hspec := addCategorySim_spec wrap p acc h1 h2
    exact ih _ hspec.1 hspec.2

/-- C3: in the vertical-cursor layout of `generatePDFChecklist`, for
every analysis result, every text-wrapping metric and every timestamp,
each checklist item's checkbox rectangle and the first line of its
title text are drawn on the same page (they share the page current
after the item's single page-break check), and that shared baseline
lies inside the page's content area between the top and bottom
margins — no item is split across a page boundary. -/
theorem generatePDF_nonsplit (wrap : WrapFn) (timestamp : String) (result : AnalysisResult) :
    List.Forall
      (fun p => p.checkboxPage = p.textPage ∧ pdfMargin ≤ p.textBaseline ∧
        p.textBaseline ≤ pageHeightA4 - pdfMargin)
      (pdfLayoutSim wrap timestamp result).1 := by
  rw [List.forall_iff_forall_mem]
  unfold pdfLayoutSim
  apply categoriesFold_spec wrap (categorize result.heuristics)
    ([], pdfHeaderSim wrap timestamp result.detected)
  · exact pdfHeaderSim_y wrap timestamp result.detected
  · intro q hq
    exact absurd hq (List.not_mem_nil q)

end HeuristicDocs
